import Mathlib

/-!
Verification of the integration-test-platform execution engine.

This file gives a shallow embedding of the TypeScript sources of the
repository and proves properties of the embedded definitions.

Embedded components:
* the JSON-like dynamic value universe that flows through the engine
  (`JValue`), together with the JavaScript coercions the code relies on
  (truthiness, `String(v)`, `JSON.stringify`, property access);
* the variable resolver `TestEngine.processStepVariables`;
* the validators `TestEngine.validateDependencies` and
  `TestEngine.validateIfConditions`;
* the step executor `TestEngine.executeTestStep` and the two scheduler
  modes `executeStepsSequentially` / `executeStepsWithDependencies` of
  `TestEngine.executeTestCase`;
* the `AssertionEngine` (`compareValues`, `evaluateSpecialAssertion`,
  `resolveVariables`, `getVariableValue`).

Modelling conventions:
* JavaScript `undefined` is the `JValue.undef` constructor; `null` is
  `JValue.null`.  Machine floats are modelled as `Int` (all numbers the
  engine manipulates in the modelled paths are integers).
* A thrown JavaScript exception is modelled as `Except.error msg` (or
  `Option` where only a `TypeError` can occur); property access on
  `undefined`/`null` throws, property access on other scalars yields
  `undefined`.  Inherited prototype properties (e.g. `toString`) are not
  modelled: property lookup is own-data-property lookup, plus the
  `length` property and indexing of arrays and strings.
* `Map` objects are association lists in insertion order, `Map.set`
  overwriting in place, exactly as JavaScript `Map` behaves.
* The DAG scheduler loop of `executeStepsWithDependencies` is modelled
  round-by-round, the ready steps of a round running to completion in
  declared order.  This coincides with the JavaScript semantics whenever
  at most one step is ready per round (the situation of every concrete
  input used below); event interleaving between truly parallel steps is
  not modelled.
-/

deriving instance DecidableEq for Except

namespace ITP

/-! ## The dynamic value universe -/

/-- A JavaScript/JSON value as it flows through the engine: `undefined`,
`null`, booleans, numbers, strings, arrays and plain objects (fields in
insertion order). -/
inductive JValue where
  | undef : JValue
  | null : JValue
  | bool (b : Bool) : JValue
  | num (n : Int) : JValue
  | str (s : String) : JValue
  | arr (elems : List JValue) : JValue
  | obj (fields : List (String × JValue)) : JValue
deriving Repr, Inhabited

/-- Is the value `undefined`? -/
def JValue.isUndef : JValue → Bool
  | .undef => true
  | _ => false

mutual

/-- Structural equality test on values (used to derive decidable
equality; the nested `List` occurrences defeat `deriving`). -/
def beqJ : JValue → JValue → Bool
  | .undef, .undef => true
  | .null, .null => true
  | .bool a, .bool b => a == b
  | .num a, .num b => a == b
  | .str a, .str b => a == b
  | .arr xs, .arr ys => beqJList xs ys
  | .obj fs, .obj gs => beqJFields fs gs
  | _, _ => false

/-- Elementwise equality of value lists. -/
def beqJList : List JValue → List JValue → Bool
  | [], [] => true
  | x :: xs, y :: ys => beqJ x y && beqJList xs ys
  | _, _ => false

/-- Fieldwise equality of field lists. -/
def beqJFields : List (String × JValue) → List (String × JValue) → Bool
  | [], [] => true
  | (k, v) :: fs, (l, w) :: gs => k == l && beqJ v w && beqJFields fs gs
  | _, _ => false

end

mutual

theorem beqJ_iff : ∀ a b : JValue, beqJ a b = true ↔ a = b
  | .undef, b => by cases b <;> simp [beqJ]
  | .null, b => by cases b <;> simp [beqJ]
  | .bool a, b => by cases b <;> simp [beqJ]
  | .num a, b => by cases b <;> simp [beqJ]
  | .str a, b => by cases b <;> simp [beqJ]
  | .arr xs, b => by
    cases b <;> simp [beqJ]
    exact beqJList_iff xs _
  | .obj fs, b => by
    cases b <;> simp [beqJ]
    exact beqJFields_iff fs _

theorem beqJList_iff : ∀ xs ys : List JValue, beqJList xs ys = true ↔ xs = ys
  | [], ys => by cases ys <;> simp [beqJList]
  | x :: xs, ys => by
    cases ys with
    | nil => simp [beqJList]
    | cons y ys =>
      simp [beqJList, Bool.and_eq_true, beqJ_iff x y, beqJList_iff xs ys]

theorem beqJFields_iff : ∀ fs gs : List (String × JValue), beqJFields fs gs = true ↔ fs = gs
  | [], gs => by cases gs <;> simp [beqJFields]
  | (k, v) :: fs, gs => by
    cases gs with
    | nil => simp [beqJFields]
    | cons g gs =>
      obtain ⟨l, w⟩ := g
      simp [beqJFields, Bool.and_eq_true, beqJ_iff v w, beqJFields_iff fs gs,
        Prod.ext_iff, and_assoc]

end

instance : DecidableEq JValue := fun a b =>
  decidable_of_iff (beqJ a b = true) (beqJ_iff a b)

/-- JavaScript truthiness of a value (`if (v)`): `undefined`, `null`,
`false`, `0` and the empty string are falsy, everything else is truthy. -/
def truthy : JValue → Bool
  | .undef => false
  | .null => false
  | .bool b => b
  | .num n => n != 0
  | .str s => s ≠ ""
  | .arr _ => true
  | .obj _ => true

/-- `typeof v === \x27object\x27` in JavaScript: true for `null`, arrays
and objects. -/
def typeofObject : JValue → Bool
  | .null => true
  | .arr _ => true
  | .obj _ => true
  | _ => false

/-- `Array.isArray(v)`. -/
def isArray : JValue → Bool
  | .arr _ => true
  | _ => false

/-- A structure in the sense of the specification: an array or an object
(`null` is a scalar). -/
def isStructure : JValue → Bool
  | .arr _ => true
  | .obj _ => true
  | _ => false

/-- The left brace character, written by code point to keep brace
characters out of string literals. -/
def lbrace : Char := Char.ofNat 123

/-- The right brace character. -/
def rbrace : Char := Char.ofNat 125

/-- Association-list lookup, first binding wins (JavaScript `Map.get` /
own-property lookup). -/
def lookupKV {α : Type} (m : List (String × α)) (k : String) : Option α :=
  (m.find? (fun p => p.1 == k)).map (fun p => p.2)

/-- JavaScript `Map.set` / property assignment on an association list:
overwrite the existing binding in place, else append. -/
def setKV {α : Type} (m : List (String × α)) (k : String) (v : α) : List (String × α) :=
  if m.any (fun p => p.1 == k) then
    m.map (fun p => if p.1 == k then (k, v) else p)
  else
    m ++ [(k, v)]

/-- A canonical array index in the sense of JavaScript property lookup on
arrays and strings: a string of digits with no superfluous leading zero.
Returns the index, or `none` for a non-index key. -/
def digitsToNat (cs : List Char) : Nat :=
  cs.foldl (fun acc c => acc * 10 + (c.toNat - 48)) 0

def canonicalIndex (key : String) : Option Nat :=
  if key ≠ "" && key.toList.all Char.isDigit &&
      (key = "0" || ¬ key.toList.head? = some '0') then
    some (digitsToNat key.toList)
  else
    none

/-- JavaScript property read `v[key]` for values on which it does not
throw (`v` neither `undefined` nor `null`): own data properties of
objects, canonical indices and `length` of arrays and strings; every
other access yields `undefined`.  Inherited methods are not modelled. -/
def jsGet : JValue → String → JValue
  | .obj fields, key => (lookupKV fields key).getD .undef
  | .arr elems, key =>
    if key = "length" then .num elems.length
    else
      match canonicalIndex key with
      | some i => elems.getD i .undef
      | none => .undef
  | .str s, key =>
    if key = "length" then .num s.length
    else
      match canonicalIndex key with
      | some i =>
        match s.toList.get? i with
        | some c => .str (String.mk [c])
        | none => .undef
      | none => .undef
  | _, _ => .undef

mutual

/-- JavaScript string coercion `String(v)`.  Arrays join their elements
with commas (`Array.prototype.toString`), `null`/`undefined` elements
becoming empty; plain objects print as `[object Object]`. -/
def jsString : JValue → String
  | .undef => "undefined"
  | .null => "null"
  | .bool b => if b then "true" else "false"
  | .num n => toString n
  | .str s => s
  | .arr elems => String.intercalate "," (jsStringPieces elems)
  | .obj _ => "[object Object]"

/-- The element pieces of `String(array)` (`Array.prototype.join`):
`null` and `undefined` become the empty string. -/
def jsStringPieces : List JValue → List String
  | [] => []
  | .undef :: rest => "" :: jsStringPieces rest
  | .null :: rest => "" :: jsStringPieces rest
  | e :: rest => jsString e :: jsStringPieces rest

end

/-- JSON string-literal escaping as performed by `JSON.stringify`. -/
def jsonEscapeChar (c : Char) : String :=
  if c = Char.ofNat 34 then "\\\""
  else if c = Char.ofNat 92 then "\\\\"
  else if c = Char.ofNat 10 then "\\n"
  else if c = Char.ofNat 13 then "\\r"
  else if c = Char.ofNat 9 then "\\t"
  else if c = Char.ofNat 8 then "\\b"
  else if c = Char.ofNat 12 then "\\f"
  else if c.toNat < 32 then
    "\\u00" ++ String.mk [Nat.digitChar (c.toNat / 16), Nat.digitChar (c.toNat % 16)]
  else
    String.mk [c]

/-- JSON escaping of a whole string body. -/
def jsonEscape (s : String) : String :=
  String.join (s.toList.map jsonEscapeChar)

mutual

/-- `JSON.stringify(v)` on the values reachable in the modelled call
sites.  `undefined` has no JSON text (at top level `JSON.stringify`
returns `undefined`; the engine only stringifies values it has checked
are not `undefined`); object fields bound to `undefined` are dropped and
`undefined` array elements serialize as `null`. -/
def jsonStr : JValue → String
  | .undef => "undefined"
  | .null => "null"
  | .bool b => if b then "true" else "false"
  | .num n => toString n
  | .str s => "\"" ++ jsonEscape s ++ "\""
  | .arr elems => "[" ++ String.intercalate "," (jsonStrElems elems) ++ "]"
  | .obj fields => "\x7b" ++ String.intercalate "," (jsonStrFields fields) ++ "\x7d"

/-- Array elements of `JSON.stringify`, `undefined` rendered `null`. -/
def jsonStrElems : List JValue → List String
  | [] => []
  | e :: rest => (if e.isUndef then "null" else jsonStr e) :: jsonStrElems rest

/-- Object fields of `JSON.stringify`; fields bound to `undefined` are
dropped. -/
def jsonStrFields : List (String × JValue) → List String
  | [] => []
  | f :: rest =>
    if f.2.isUndef then jsonStrFields rest
    else ("\"" ++ jsonEscape f.1 ++ "\":" ++ jsonStr f.2) :: jsonStrFields rest

end

/-- Character-level split, JavaScript `String.prototype.split(sep)` with
a one-character separator: splitting the empty list yields one empty
piece, separators at the ends yield empty pieces. -/
def splitChar (sep : Char) : List Char → List (List Char)
  | [] => [[]]
  | c :: rest =>
    let pieces := splitChar sep rest
    if c = sep then
      [] :: pieces
    else
      match pieces with
      | [] => [[c]]
      | p :: ps => (c :: p) :: ps

/-- `variable.split(sep)` at the string level. -/
def jsSplit (sep : Char) (s : String) : List String :=
  (splitChar sep s.toList).map (fun cs => String.mk cs)

/-- JavaScript `str.replace(c, "")` with a one-character pattern:
remove only the first occurrence. -/
def removeFirstChar (c : Char) : List Char → List Char
  | [] => []
  | d :: rest => if d = c then rest else d :: removeFirstChar c rest

/-- `parseInt(s)` restricted to optional sign plus decimal digits after
optional leading whitespace, `none` standing for `NaN`.  (The hexadecimal
`0x` form of `parseInt` is not modelled; no modelled call site produces
it.) -/
def parseIntJS (s : String) : Option Int :=
  let cs := s.toList.dropWhile (fun c => c = ' ' || c = '\t' || c = '\n' || c = '\r')
  let (neg, cs) : Bool × List Char :=
    match cs with
    | '-' :: rest => (true, rest)
    | '+' :: rest => (false, rest)
    | _ => (false, cs)
  let digits := cs.takeWhile Char.isDigit
  if digits.isEmpty then none
  else
    let n : Nat := digits.foldl (fun acc c => acc * 10 + (c.toNat - 48)) 0
    some (if neg then -(n : Int) else (n : Int))

/-! ## The placeholder scanner

`s.replace(/\x7b([^\x7d]+)\x7d/g, cb)` as used both by
`TestEngine.processStepVariables` and by
`AssertionEngine.resolveVariables`: scan left to right; a match is a left
brace, one or more non-right-brace characters (matched greedily), and a
right brace; each match is replaced by the callback's return value; on a
failed match attempt the scan resumes one character further on.  The
callback may throw (`none`), which aborts the whole replacement. -/

mutual

/-- The scanner, outside any match attempt.  A left brace starts a
match attempt; every other character is copied.  Equivalence with the
regex scan: a match of `/\x7b([^\x7d]+)\x7d/` starting at a left brace
captures, greedily, exactly the characters up to the first following
right brace (left braces included), so the leftmost-match discipline is
the same as entering capture mode at the first left brace. -/
def scanPlain (f : String → Option String) : List Char → Option (List Char)
  | [] => some []
  | c :: rest =>
    if c = lbrace then scanCapture f [] rest
    else (scanPlain f rest).map (fun out => c :: out)

/-- The scanner inside a match attempt: `buf` holds the characters read
since the opening brace, in reverse.  The first right brace closes the
capture; a capture must be nonempty (`[^\x7d]+`), so a brace pair with
nothing between is not a match — the scan resumes at the right brace,
which cannot start a match and is copied.  End of input aborts the
attempt and the consumed text is reproduced (and can contain no further
match: it has no right brace). -/
def scanCapture (f : String → Option String) (buf : List Char) :
    List Char → Option (List Char)
  | [] => some (lbrace :: buf.reverse)
  | c :: rest =>
    if c = rbrace then
      match buf with
      | [] => (scanPlain f rest).map (fun out => lbrace :: rbrace :: out)
      | _ :: _ =>
        match f (String.mk buf.reverse) with
        | none => none
        | some repl => (scanPlain f rest).map (fun out => repl.toList ++ out)
    else scanCapture f (c :: buf) rest
end

/-- String-level regex replace with callback `f`. -/
def jsReplace (f : String → Option String) (s : String) : Option String :=
  (scanPlain f s.toList).map (fun cs => String.mk cs)

/-! ## The engine's value resolver (`TestEngine.processStepVariables`) -/

/-- The outcome of one action: `success` flag plus free-form output. -/
structure ActionResult where
  success : Bool
  output : JValue
deriving Repr, DecidableEq, Inhabited

/-- The JavaScript object view of an `ActionResult` (field insertion
order of the object literals in the source: `success`, then `output`). -/
def ActionResult.toJ (r : ActionResult) : JValue :=
  .obj [("success", .bool r.success), ("output", r.output)]

/-- The slice of the `ExecutionContext` that `processStepVariables`
reads: the test identity and the completed step results. -/
structure ResolverCtx where
  testCaseId : String
  testCaseName : String
  stepResults : List (String × ActionResult)
deriving Repr, DecidableEq, Inhabited

/-- One path segment of the traversal loop of `processStepVariables`:
`key[n]` keys index into the sequence at `key` (`value[arrayKey]?.[index]`,
the optional chaining guarding only the index access), other keys are a
plain property read.  The incoming value is neither `undefined` nor
`null` (the caller checks). -/
def walkKey (v : JValue) (key : String) : JValue :=
  if key.toList.any (fun c => c = '[') && key.toList.any (fun c => c = ']') then
    let partsB := jsSplit '[' key
    let arrayKey := partsB.headD ""
    let indexStr := partsB.getD 1 ""
    let base := jsGet v arrayKey
    if base = .undef || base = .null then .undef
    else
      match parseIntJS (String.mk (removeFirstChar ']' indexStr.toList)) with
      | some i => jsGet base (toString i)
      | none => .undef
  else
    jsGet v key

/-- The traversal loop of `processStepVariables`: walk the remaining path
segments, stopping at the first `undefined` (the `break`); `none` models
the `TypeError` thrown by a property read on `null`. -/
def walkPath : JValue → List String → Option JValue
  | v, [] => some v
  | v, key :: rest =>
    if v = .null then none
    else
      let v2 := walkKey v key
      if v2 = .undef then some .undef
      else walkPath v2 rest

/-- The replacement callback of `processStepVariables`: resolve one
captured `variable`.  Returns the replacement string; `none` models a
thrown `TypeError`.  An unknown first segment or a traversal that reaches
`undefined` reproduces the match text `\x7bvariable\x7d`. -/
def resolveVarE (ctx : ResolverCtx) (varName : String) : Option String :=
  let matchStr := String.mk (lbrace :: varName.toList ++ [rbrace])
  if varName = "testCaseId" then some ctx.testCaseId
  else if varName = "testCaseName" then some ctx.testCaseName
  else
    let parts := jsSplit '.' varName
    let stepId := parts.headD ""
    let path := parts.tail
    match lookupKV ctx.stepResults stepId with
    | none => some matchStr
    | some r =>
      if path.isEmpty then some (jsonStr r.toJ)
      else
        match walkPath r.toJ path with
        | none => none
        | some v =>
          if v = .undef then some matchStr
          else some (if typeofObject v then jsonStr v else jsString v)

/-- Resolve every placeholder of one string
(`obj.replace(/\x7b([^\x7d]+)\x7d/g, ...)` in `processStepVariables`). -/
def resolveString (ctx : ResolverCtx) (s : String) : Option String :=
  jsReplace (resolveVarE ctx) s

mutual

/-- The `replaceVariables` recursion of `processStepVariables`: strings
are template-substituted, arrays map elementwise, objects map over the
values, all other values pass through. -/
def resolveStruct (ctx : ResolverCtx) : JValue → Option JValue
  | .str s => (resolveString ctx s).map .str
  | .arr elems => (resolveStructList ctx elems).map .arr
  | .obj fields => (resolveStructFields ctx fields).map .obj
  | v => some v

/-- Elementwise resolution of an array. -/
def resolveStructList (ctx : ResolverCtx) : List JValue → Option (List JValue)
  | [] => some []
  | v :: rest =>
    match resolveStruct ctx v with
    | none => none
    | some v2 =>
      match resolveStructList ctx rest with
      | none => none
      | some rest2 => some (v2 :: rest2)

/-- Valuewise resolution of an object. -/
def resolveStructFields (ctx : ResolverCtx) :
    List (String × JValue) → Option (List (String × JValue))
  | [] => some []
  | (k, v) :: rest =>
    match resolveStruct ctx v with
    | none => none
    | some v2 =>
      match resolveStructFields ctx rest with
      | none => none
      | some rest2 => some ((k, v2) :: rest2)

end

/-! ## Test cases, steps and the engine state -/

/-- A step of a test case (`StepDefinition` of `actions/BaseAction`):
`params`, `if` and `depends_on` are optional (`params = JValue.undef`
stands for an absent `params`).  The `if` field is called `ifCond` here
because `if` is reserved in Lean. -/
structure StepDefinition where
  name : String
  id : String
  kind : String
  params : JValue := .undef
  ifCond : Option String := none
  depends_on : Option (List String) := none
deriving Repr, DecidableEq, Inhabited

/-- A test case (`TestCase` of `TestEngine`). -/
structure TestCase where
  kind : String
  version : String
  name : String
  step : List StepDefinition
deriving Repr, DecidableEq, Inhabited

/-- The scheduler-internal per-step status (`StepStatus`). -/
inductive StepStatus where
  | pending
  | enqueued
  | running
  | finished
  | failed
  | skipped
deriving Repr, DecidableEq, Inhabited

/-- Scheduler-internal per-step state (`StepState`): a status plus the
result once terminal. -/
structure StepState where
  status : StepStatus
  result : Option ActionResult := none
deriving Repr, DecidableEq, Inhabited

/-- One reporter call (`BaseReporter`), recorded in emission order. -/
inductive REvent where
  | testStart (id nm : String)
  | stepStart (id nm kind : String)
  | stepEnd (id : String) (success : Bool) (output : JValue)
  | stepSkipped (id nm kind reason : String)
  | testEnd (id : String) (success : Bool)
deriving Repr, DecidableEq

/-- The mutable state threaded through one `executeTestCase` run: the
`ExecutionContext` fields the engine reads and writes (`testSuccess` is
`none` while the `testSuccess` key is unset, i.e. JavaScript
`undefined`), the scheduler's `stepStates` map, the emitted reporter
events, and the ids of the steps whose Action was invoked. -/
structure RunState where
  testCaseId : String
  testCaseName : String
  testSuccess : Option Bool := none
  stepResults : List (String × ActionResult) := []
  stepStates : List (String × StepState) := []
  events : List REvent := []
  invoked : List String := []
deriving Repr, DecidableEq, Inhabited

/-- JavaScript truthiness of the `testSuccess` context entry (`undefined`
when unset). -/
def tsTruthy : Option Bool → Bool
  | none => false
  | some b => b

/-- The resolver context visible to `processStepVariables` during a run. -/
def RunState.resCtx (st : RunState) : ResolverCtx :=
  { testCaseId := st.testCaseId, testCaseName := st.testCaseName,
    stepResults := st.stepResults }

/-- An action: a function from the resolved step to a result, a raised
failure modelled as `Except.error message` (`BaseAction.execute`). -/
def Action : Type := StepDefinition → Except String ActionResult

/-- An action registry: kind name to action (`ActionRegistry`). -/
def Registry : Type := List (String × Action)

/-! ## `TestEngine.processStepVariables` on a whole step

The source deep-copies the step (`JSON.parse(JSON.stringify(step))`) and
runs `replaceVariables` over the resulting object, so every string field
of the step is template-substituted, `depends_on` elementwise, `params`
recursively. -/

/-- Resolve each element of an optional string list. -/
def resolveStringList (ctx : ResolverCtx) : List String → Option (List String)
  | [] => some []
  | s :: rest =>
    match resolveString ctx s with
    | none => none
    | some s2 => (resolveStringList ctx rest).map (fun r => s2 :: r)

/-- `processStepVariables` on a step: `none` models a thrown
`TypeError`. -/
def processStep (ctx : ResolverCtx) (step : StepDefinition) : Option StepDefinition := do
  let nm ← resolveString ctx step.name
  let id2 ← resolveString ctx step.id
  let kind2 ← resolveString ctx step.kind
  let params2 ← resolveStruct ctx step.params
  let if2 ← match step.ifCond with
    | none => pure none
    | some s => (resolveString ctx s).map some
  let deps2 ← match step.depends_on with
    | none => pure none
    | some l => (resolveStringList ctx l).map some
  pure { name := nm, id := id2, kind := kind2, params := params2,
         ifCond := if2, depends_on := deps2 }

/-- ASCII `toLowerCase()` (the modelled conditions are ASCII). -/
def jsToLower (s : String) : String :=
  String.mk (s.toList.map Char.toLower)

/-- Is the character JavaScript whitespace (the forms occurring here)? -/
def isWsChar (c : Char) : Bool :=
  c = ' ' || c = '\t' || c = '\n' || c = '\r' || c = Char.ofNat 11 || c = Char.ofNat 12

/-- `trim()`: strip whitespace from both ends. -/
def jsTrim (s : String) : String :=
  String.mk (((s.toList.dropWhile isWsChar).reverse.dropWhile isWsChar).reverse)

/-- `s.toLowerCase().trim()` as the validator and the guard apply it. -/
def jsLowerTrim (s : String) : String :=
  jsTrim (jsToLower s)

/-! ## Validators -/

/-- `validateIfConditions`: every step with a truthy `if` value must
carry one of the three conditions after lower-casing and trimming (an
empty-string `if` is falsy in JavaScript and escapes the check). -/
def validateIfConditions (tc : TestCase) : Except String Unit :=
  go tc.step
where
  /-- The per-step loop. -/
  go : List StepDefinition → Except String Unit
    | [] => .ok ()
    | step :: rest =>
      match step.ifCond with
      | none => go rest
      | some s =>
        if s = "" then go rest
        else
          let condition := jsLowerTrim s
          if condition = "always()" || condition = "success()" || condition = "failure()" then
            go rest
          else
            .error ("Invalid if condition \x27" ++ s ++ "\x27 in step \x27" ++ step.id ++
              "\x27. Valid conditions are: always(), success(), failure()")

/-- The duplicate-id collection loop of `validateDependencies`: walk the
steps keeping the `stepIds` set and the `duplicateIds` set (both in
insertion order, as JavaScript `Set` iterates). -/
def collectDuplicates : List StepDefinition → List String → List String → List String
  | [], _, dups => dups
  | step :: rest, seen, dups =>
    let dups2 := if step.id ∈ seen && step.id ∉ dups then dups ++ [step.id] else dups
    let seen2 := if step.id ∈ seen then seen else seen ++ [step.id]
    collectDuplicates rest seen2 dups2

/-- `stepIdToIndex.get`: the index of the last step with the given id
(`forEach` + `set` leaves the last write). -/
def lastIndexOfId (tc : TestCase) (d : String) : Option Nat :=
  match (tc.step.enum.filter (fun p => p.2.id == d)).getLast? with
  | some p => some p.1
  | none => none

/-- The dependency loop of `validateDependencies`: for the step at index
`i`, every `depends_on` entry must name an existing step whose index is
strictly smaller than `i`. -/
def checkDeps (tc : TestCase) : List (Nat × StepDefinition) → Except String Unit
  | [] => .ok ()
  | (i, step) :: rest =>
    match step.depends_on with
    | none => checkDeps tc rest
    | some deps =>
      match goDeps i step.id deps with
      | .ok () => checkDeps tc rest
      | .error e => .error e
where
  /-- The inner loop over one step's dependencies. -/
  goDeps (i : Nat) (sid : String) : List String → Except String Unit
    | [] => .ok ()
    | d :: ds =>
      match lastIndexOfId tc d with
      | none => .error ("Step \x27" ++ sid ++ "\x27 depends on non-existent step \x27" ++ d ++ "\x27")
      | some j =>
        if j ≥ i then
          .error ("Step \x27" ++ sid ++ "\x27 cannot depend on step \x27" ++ d ++
            "\x27 because dependencies must be defined above the current step")
        else
          goDeps i sid ds

/-- `validateDependencies`: reject duplicated step ids (naming all of
them), then dependencies on unknown ids or on ids not defined strictly
above the depending step. -/
def validateDependencies (tc : TestCase) : Except String Unit :=
  let dups := collectDuplicates tc.step [] []
  if dups.isEmpty then
    checkDeps tc tc.step.enum
  else
    .error ("Duplicate step IDs found: " ++ String.intercalate ", " dups)

/-! ## `TestEngine.shouldExecuteStep` and `TestEngine.canExecuteStep` -/

/-- `shouldExecuteStep(step, currentTestSuccess)`: with no (or an empty,
hence falsy) `if`, return `currentTestSuccess` as is (possibly
JavaScript `undefined` = `none`); `always()` is true, `success()` is
`currentTestSuccess`, `failure()` is `!currentTestSuccess` under
truthiness; anything else throws. -/
def shouldExecuteStep (step : StepDefinition) (ts : Option Bool) :
    Except String (Option Bool) :=
  match step.ifCond with
  | none => .ok ts
  | some s =>
    if s = "" then .ok ts
    else
      let condition := jsLowerTrim s
      if condition = "always()" then .ok (some true)
      else if condition = "success()" then .ok ts
      else if condition = "failure()" then .ok (some (!tsTruthy ts))
      else .error ("Invalid condition: " ++ s)

/-- `canExecuteStep(step, stepStates)`: a step with no dependencies is
ready; otherwise every dependency must have a state and that state's
status must be `FINISHED`. -/
def canExecuteStep (step : StepDefinition) (stepStates : List (String × StepState)) : Bool :=
  match step.depends_on with
  | none => true
  | some deps =>
    if deps.isEmpty then true
    else deps.all (fun d =>
      match lookupKV stepStates d with
      | some ds => ds.status == .finished
      | none => false)

/-! ## `TestEngine.executeTestStep` -/

/-- The wrapped result of a caught exception:
`\x7bsuccess: false, output: \x7berror, stack\x7d\x7d` (`stack` is
`undefined` for the model's string errors). -/
def errorResultOf (msg : String) : ActionResult :=
  { success := false, output := .obj [("error", .str msg), ("stack", .undef)] }

/-- The skip reason string: `Condition: <if>` for a truthy `if` value,
else `Condition: success() (default)`. -/
def skipReason (step : StepDefinition) : String :=
  match step.ifCond with
  | some s => if s = "" then "Condition: success() (default)" else "Condition: " ++ s
  | none => "Condition: success() (default)"

/-- `executeTestStep(executionContext, stepId)`: look the step up, run
the resolver over it, evaluate the conditional guard (skipping emits
`reportStepSkipped` and returns a synthetic success with output
`"SKIPPED"`, touching neither `stepResults` nor `testSuccess`), else
emit `reportStepStart`, dispatch the registered action (an unknown kind
throws after the start event), record the result in `stepResults`, emit
`reportStepEnd` and clear `testSuccess` on failure.  A raised action
failure is wrapped, recorded and returned as a normal result.  The
`Except.error` return models an exception escaping `executeTestStep`. -/
def executeTestStep (reg : Registry) (tc : TestCase) (st : RunState) (stepId : String) :
    RunState × Except String ActionResult :=
  match tc.step.find? (fun s => s.id == stepId) with
  | none => (st, .error ("Step with id " ++ stepId ++ " not found"))
  | some step =>
    match processStep st.resCtx step with
    | none => (st, .error "TypeError")
    | some pstep =>
      match shouldExecuteStep pstep st.testSuccess with
      | .error e => (st, .error e)
      | .ok sev =>
        if ¬ tsTruthy sev then
          ({ st with events := st.events ++
              [.stepSkipped pstep.id pstep.name pstep.kind (skipReason pstep)] },
           .ok { success := true, output := .str "SKIPPED" })
        else
          let st1 := { st with events := st.events ++ [.stepStart pstep.id pstep.name pstep.kind] }
          match lookupKV reg pstep.kind with
          | none => (st1, .error ("Unknown action kind: " ++ pstep.kind))
          | some act =>
            let st2 := { st1 with invoked := st1.invoked ++ [pstep.id] }
            match act pstep with
            | .ok result =>
              ({ st2 with
                  stepResults := setKV st2.stepResults pstep.id result,
                  events := st2.events ++ [.stepEnd pstep.id result.success result.output],
                  testSuccess := if result.success then st2.testSuccess else some false },
               .ok result)
            | .error msg =>
              let er := errorResultOf msg
              ({ st2 with
                  stepResults := setKV st2.stepResults pstep.id er,
                  events := st2.events ++ [.stepEnd pstep.id false er.output],
                  testSuccess := some false },
               .ok er)

/-! ## `TestEngine.executeStepsSequentially` -/

/-- The sequential loop: run each step through `executeTestStep`, record
`FINISHED`/`FAILED` in `stepStates` (under the raw step id), clear the
flags on failure; a caught exception records the wrapped result in both
maps. -/
def seqSteps (reg : Registry) (tc : TestCase) :
    List StepDefinition → RunState → Bool → RunState × Bool
  | [], st, overall => (st, overall)
  | step :: rest, st, overall =>
    match executeTestStep reg tc st step.id with
    | (st1, .ok result) =>
      let st2 := { st1 with
        stepStates := setKV st1.stepStates step.id
          { status := if result.success then .finished else .failed, result := some result } }
      if result.success then
        seqSteps reg tc rest st2 overall
      else
        seqSteps reg tc rest { st2 with testSuccess := some false } false
    | (st1, .error msg) =>
      let er := errorResultOf msg
      let st2 := { st1 with
        stepStates := setKV st1.stepStates step.id { status := .failed, result := some er },
        stepResults := setKV st1.stepResults step.id er,
        testSuccess := some false }
      seqSteps reg tc rest st2 false

/-! ## `TestEngine.executeStepsWithDependencies` -/

/-- The re-check for failed dependencies performed inside the per-step
closure: the first `depends_on` entry whose state carries a result with
`success: false`. -/
def findFailedDep (step : StepDefinition) (stepStates : List (String × StepState)) :
    Option String :=
  match step.depends_on with
  | none => none
  | some deps => deps.find? (fun d =>
      match lookupKV stepStates d with
      | some ds =>
        match ds.result with
        | some r => !r.success
        | none => false
      | none => false)

/-- The synthetic result recorded for a step whose dependency failed. -/
def depFailureResult (d : String) : ActionResult :=
  { success := false,
    output := .obj [("error", .str ("Dependency \x27" ++ d ++ "\x27 failed"))] }

/-- The body of one ready step in DAG mode: mark `RUNNING`, re-check the
dependencies for recorded failures (short-circuiting with the synthetic
failure result, a `reportStepEnd` and cleared flags), else run
`executeTestStep` and record the terminal state; a caught exception
records the wrapped result.  Returns the state plus the updated
`overallTestSuccess`. -/
def dagRunStep (reg : Registry) (tc : TestCase) (st : RunState) (step : StepDefinition)
    (overall : Bool) : RunState × Bool :=
  let st0 := { st with stepStates := setKV st.stepStates step.id { status := .running } }
  match findFailedDep step st0.stepStates with
  | some d =>
    let fr := depFailureResult d
    ({ st0 with
        stepStates := setKV st0.stepStates step.id { status := .failed, result := some fr },
        stepResults := setKV st0.stepResults step.id fr,
        events := st0.events ++ [.stepEnd step.id false fr.output],
        testSuccess := some false },
     false)
  | none =>
    match executeTestStep reg tc st0 step.id with
    | (st1, .ok result) =>
      ({ st1 with
          stepStates := setKV st1.stepStates step.id
            { status := if result.success then .finished else .failed,
              result := some result },
          testSuccess := if result.success then st1.testSuccess else some false },
       overall && result.success)
    | (st1, .error msg) =>
      let er := errorResultOf msg
      ({ st1 with
          stepStates := setKV st1.stepStates step.id { status := .failed, result := some er },
          stepResults := setKV st1.stepResults step.id er,
          testSuccess := some false },
       false)

/-- The ready set of one scheduler iteration: the steps still `PENDING`
whose dependencies are all `FINISHED` (no step is concurrently executing
between the modelled rounds). -/
def readySteps (tc : TestCase) (st : RunState) : List StepDefinition :=
  tc.step.filter (fun step =>
    (match lookupKV st.stepStates step.id with
     | some ss => ss.status == .pending
     | none => false) && canExecuteStep step st.stepStates)

/-- The `while (!allStepsCompleted)` loop, round by round: if no step is
ready (and, between rounds, none is executing) the loop exits; otherwise
every ready step runs.  `fuel` bounds the number of rounds; `none` means
the fuel ran out (the JavaScript loop would spin in its sleep branch). -/
def dagRounds (reg : Registry) (tc : TestCase) :
    Nat → RunState → Bool → Option (RunState × Bool)
  | 0, _, _ => none
  | fuel + 1, st, overall =>
    match readySteps tc st with
    | [] => some (st, overall)
    | ready =>
      let (st2, overall2) := ready.foldl
        (fun acc step => dagRunStep reg tc acc.1 step acc.2) (st, overall)
      dagRounds reg tc fuel st2 overall2

/-! ## `TestEngine.executeTestCase` -/

/-- `executeTestCase(testCase, executionContext)`: validate dependencies
and `if` conditions, reset `stepStates` to `PENDING` and `stepResults`
to empty (`testSuccess` is NOT initialized), then run the sequential
mode when no step declares dependencies and the DAG mode otherwise.
Returns the boolean verdict and the final state; `Except.error` models a
thrown validation error, the inner `none` an engine that never leaves
the DAG loop. -/
def executeTestCase (reg : Registry) (tc : TestCase) (st : RunState) :
    Except String (Option (Bool × RunState)) := do
  match validateDependencies tc with
  | .error e => throw e
  | .ok () => pure ()
  match validateIfConditions tc with
  | .error e => throw e
  | .ok () => pure ()
  let st := { st with
    stepStates := tc.step.foldl (fun m step => setKV m step.id { status := .pending }) [],
    stepResults := [] }
  let hasDeps := tc.step.any (fun step =>
    match step.depends_on with
    | some deps => !deps.isEmpty
    | none => false)
  if hasDeps then
    match dagRounds reg tc (tc.step.length + 1) st true with
    | some (st2, overall) => pure (some (overall, st2))
    | none => pure none
  else
    let (st2, overall) := seqSteps reg tc tc.step st true
    pure (some (overall, st2))

/-! ## The bundled stub actions -/

/-- `NopAction`: always succeeds with output `\x7bstatus: "OK"\x7d`. -/
def nopAction : Action := fun _ =>
  .ok { success := true, output := .obj [("status", .str "OK")] }

/-- `FailAction`: always fails with output
`\x7berror, message, status\x7d`, the message defaulting when
`params.message` is falsy. -/
def failAction : Action := fun step =>
  let m := jsGet step.params "message"
  .ok { success := false,
        output := .obj [("error", .str "Intentional failure"),
                        ("message", if truthy m then m else .str "Step failed as expected"),
                        ("status", .str "FAILED")] }

/-- `EchoAction`: succeeds echoing its params (`\x7b\x7d` when absent). -/
def echoAction : Action := fun step =>
  .ok { success := true,
        output := .obj [("echo", if truthy step.params then step.params else .obj []),
                        ("status", .str "OK")] }

/-- The registry the example test-runner builds (restricted to the stub
actions). -/
def stubRegistry : Registry :=
  [("Echo", echoAction), ("Nop", nopAction), ("Fail", failAction)]

/-! ## The Assertion Evaluator (`AssertionEngine`) -/

/-- The `TestContext` the `AssertionEngine` reads: named variables (field `vars`, source name `variables`),
step results (free-form values here), and the optional built-ins. -/
structure TestContext where
  vars : List (String × JValue) := []
  stepResults : List (String × JValue) := []
  baseUrl : Option String := none
  testCaseId : Option String := none
deriving Repr, DecidableEq, Inhabited

/-- One field-level assertion outcome (`AssertionResult`). -/
structure AssertionResult where
  field : String
  expected : JValue
  actual : JValue
  passed : Bool
  message : Option String := none
deriving Repr, DecidableEq, Inhabited

/-- The walk of `getVariableValue` into a step result: descend only
through truthy values of object type (`value && typeof value ===
\x27object\x27`), anything else yields `undefined`. -/
def walkSimple : JValue → List String → JValue
  | v, [] => v
  | v, key :: rest =>
    if truthy v && typeofObject v then walkSimple (jsGet v key) rest
    else (.undef)

/-- `AssertionEngine.getVariableValue(path)`: context variables first,
then dotted paths into step results, then the built-ins `baseUrl` and
`testCaseId`; unknown paths are `undefined`. -/
def getVariableValue (tctx : TestContext) (path : String) : JValue :=
  match lookupKV tctx.vars path with
  | some v => v
  | none =>
    let parts := jsSplit '.' path
    let stepHit : Option JValue :=
      if parts.length > 1 then
        match lookupKV tctx.stepResults (parts.headD "") with
        | some r => some (walkSimple r parts.tail)
        | none => none
      else none
    match stepHit with
    | some v => v
    | none =>
      if path = "baseUrl" then (tctx.baseUrl.map JValue.str).getD .undef
      else if path = "testCaseId" then (tctx.testCaseId.map JValue.str).getD .undef
      else (.undef)

/-- Does the string match `/^\[(.+)\]$/`?  (One or more characters
between the brackets; `.` does not match line terminators.) -/
def bracketForm (s : String) : Option String :=
  let cs := s.toList
  match cs with
  | '[' :: rest =>
    match rest.getLast? with
    | some ']' =>
      let inner := rest.dropLast
      if inner.isEmpty || inner.any (fun c => c = '\n' || c = '\r') then none
      else some (String.mk inner)
    | _ => none
  | _ => none

/-- The template-replacement callback of
`AssertionEngine.resolveVariables`: `getVariableValue(varName) || match`,
the result string-coerced by `replace` — a falsy resolved value falls
back to the match text. -/
def assertTemplateCallback (tctx : TestContext) (varName : String) : Option String :=
  let v := getVariableValue tctx varName
  some (if truthy v then jsString v
        else String.mk (lbrace :: varName.toList ++ [rbrace]))

/-- `AssertionEngine.resolveVariables(value)`: strings of the form
`[path]` resolve to the named variable; other strings have their
`\x7bvar\x7d` placeholders substituted, a falsy resolved value falling
back to the match text (`getVariableValue(varName) || match`);
non-strings pass through. -/
def assertResolveVariables (tctx : TestContext) (value : JValue) : JValue :=
  match value with
  | .str s =>
    match bracketForm s with
    | some inner => getVariableValue tctx inner
    | none =>
      let out := jsReplace (assertTemplateCallback tctx) s
      .str (out.getD s)
  | v => v

/-- JavaScript strict equality `===` restricted to the values reaching
`handlePrimitiveAssertion`: primitives compare by value; arrays and
objects compare by reference and the two operands here never alias, so
they compare unequal. -/
def jsStrictEq : JValue → JValue → Bool
  | .undef, .undef => true
  | .null, .null => true
  | .bool a, .bool b => a == b
  | .num a, .num b => a == b
  | .str a, .str b => a == b
  | _, _ => false

/-- `AssertionEngine.evaluateSpecialAssertion(assertion, actual)`: the
four reserved tokens; every other string evaluates to `false`. -/
def evaluateSpecialAssertion (assertion : String) (actual : JValue) : Bool :=
  if assertion = "shouldNotBeNull" then !(actual = .null || actual = .undef)
  else if assertion = "shouldBeNull" then (actual = .null || actual = .undef)
  else if assertion = "shouldBeEmpty" then
    actual = .str "" || (match actual with | .arr xs => xs.isEmpty | _ => false)
  else if assertion = "shouldNotBeEmpty" then
    (actual ≠ .str "") && (match actual with | .arr xs => !xs.isEmpty | _ => true)
  else false

/-- The element path `path[i]` (or `[i]` at the root). -/
def itemPath (path : String) (i : Nat) : String :=
  if path = "" then "[" ++ toString i ++ "]"
  else path ++ "[" ++ toString i ++ "]"

/-- The field path `path.key` (or `key` at the root). -/
def childPath (path : String) (key : String) : String :=
  if path = "" then key else path ++ "." ++ key

/-- The single record pushed by `handlePrimitiveAssertion`. -/
def primitiveRecord (tctx : TestContext) (path : String) (expected actual : JValue) :
    AssertionResult :=
  let resolvedExpected := assertResolveVariables tctx expected
  let passed := jsStrictEq resolvedExpected actual
  { field := path, expected := resolvedExpected, actual := actual, passed := passed,
    message := if passed then none
      else some ("Expected \x27" ++ jsString resolvedExpected ++ "\x27 but got \x27" ++
        jsString actual ++ "\x27") }

theorem sizeOf_getD_lt (es : List JValue) (i : Nat) :
    sizeOf (es.getD i JValue.undef) < 1 + sizeOf es := by
  induction es generalizing i with
  | nil => simp [List.getD]
  | cons a rest ih =>
    cases i with
    | zero => simp [List.getD]; omega
    | succ j =>
      have h1 := ih j
      simp only [List.getD_cons_succ] at *
      simp only [List.cons.sizeOf_spec]
      omega

mutual

/-- `AssertionEngine.compareValues(path, expected, actual, results)`,
returning the records it pushes in order: sequences go to the array
handler, non-null objects to the object handler, everything else (also
`null` and `undefined`) to the primitive comparison. -/
def compareValues (tctx : TestContext) (path : String) (expected actual : JValue) :
    List AssertionResult :=
  match expected with
  | .arr [.str assertion] =>
    let passed := evaluateSpecialAssertion assertion actual
    [{ field := path, expected := .str assertion, actual := actual, passed := passed,
       message := if passed then none
         else some ("Assertion \x27" ++ assertion ++ "\x27 failed for value: " ++
           jsString actual) }]
  | .arr es =>
    match actual with
    | .arr elems => comparePositional tctx path es elems 0 (max es.length elems.length)
    | _ =>
      [{ field := path, expected := .arr es, actual := actual, passed := false,
         message := some "Expected array but got different type" }]
  | .obj fs =>
    if typeofObject actual && actual ≠ .null then
      compareFields tctx path fs actual
    else
      [{ field := path, expected := .obj fs, actual := actual, passed := false,
         message := some "Expected object but got different type" }]
  | e => [primitiveRecord tctx path e actual]
termination_by (sizeOf expected, 1, 0)

/-- The positional loop of `handleArrayAssertion`: indices `i < k`
(`k = max(expected.length, actual.length)`), missing elements read as
`undefined`. -/
def comparePositional (tctx : TestContext) (path : String) (es elems : List JValue)
    (i k : Nat) : List AssertionResult :=
  if _h : i < k then
    compareValues tctx (itemPath path i) (es.getD i .undef) (elems.getD i .undef) ++
      comparePositional tctx path es elems (i + 1) k
  else
    []
termination_by (1 + sizeOf es, 0, k - i)
decreasing_by
  · exact Prod.Lex.left _ _ (sizeOf_getD_lt es i)
  · exact Prod.Lex.right _ (Prod.Lex.right _ (by omega))

/-- The `for key in expected` loop of `handleObjectAssertion`. -/
def compareFields (tctx : TestContext) (path : String)
    (fs : List (String × JValue)) (actual : JValue) : List AssertionResult :=
  match fs with
  | [] => []
  | (key, v) :: rest =>
    compareValues tctx (childPath path key) v (jsGet actual key) ++
      compareFields tctx path rest actual
termination_by (sizeOf fs, 2, 0)

end

/-- `AssertionEngine.evaluateAssertions(expected, actual)`: the full
record list, root path `""`. -/
def evaluateAssertions (tctx : TestContext) (expected actual : JValue) :
    List AssertionResult :=
  compareValues tctx "" expected actual

/-! ## Specification-side predicates (the claims' words) -/

/-- The declared step ids, in order. -/
def stepIds (tc : TestCase) : List String := tc.step.map (fun s => s.id)

/-- The dependency list of a step (empty when absent). -/
def depsOf (step : StepDefinition) : List String := step.depends_on.getD []

/-- Claim C6, first disjunct: the test case has a duplicated step id. -/
def specDupIds (tc : TestCase) : Prop := ¬ (stepIds tc).Nodup

/-- Claim C6, second and third disjuncts: some `depends_on` entry names
a non-existent step, or names a step at an index not strictly smaller
than the depending step's index. -/
def specDepViolation (tc : TestCase) : Prop :=
  ∃ p ∈ tc.step.enum, ∃ d ∈ depsOf p.2,
    (∀ q ∈ tc.step.enum, q.2.id ≠ d) ∨ (∃ q ∈ tc.step.enum, q.2.id = d ∧ ¬ q.1 < p.1)

/-- Is the optional `if` value present, non-empty, and — lower-cased and
trimmed — none of `always()`, `success()`, `failure()`? -/
def badIfValue : Option String → Prop
  | none => False
  | some s => s ≠ "" ∧ jsLowerTrim s ≠ "always()" ∧ jsLowerTrim s ≠ "success()" ∧
      jsLowerTrim s ≠ "failure()"

instance : DecidablePred badIfValue := fun o =>
  match o with
  | none => isFalse (fun h => h)
  | some s => inferInstanceAs (Decidable (_ ∧ _ ∧ _ ∧ _))

/-- Claim C6, fourth disjunct, amended: some step carries a present and
non-empty `if` whose lower-cased and trimmed value is none of
`always()`, `success()`, `failure()`. -/
def specIfViolation (tc : TestCase) : Prop :=
  ∃ step ∈ tc.step, badIfValue step.ifCond

instance (tc : TestCase) : Decidable (specDupIds tc) := by
  unfold specDupIds; infer_instance

instance (tc : TestCase) : Decidable (specDepViolation tc) := by
  unfold specDepViolation; infer_instance

instance (tc : TestCase) : Decidable (specIfViolation tc) := by
  unfold specIfViolation; infer_instance

/-- `step i depends on step j` as an index relation: both indices are in
range and the id of step `j` appears in the `depends_on` of step `i`. -/
def dependsOnIdx (tc : TestCase) (i j : Nat) : Prop :=
  ∃ hi : i < tc.step.length, ∃ hj : j < tc.step.length,
    (tc.step.get ⟨j, hj⟩).id ∈ depsOf (tc.step.get ⟨i, hi⟩)

/-- The four reserved assertion tokens of the specification. -/
def reservedTokens : List String :=
  ["shouldNotBeNull", "shouldBeNull", "shouldBeEmpty", "shouldNotBeEmpty"]

/-- Is the expected sequence a single string element (the source's
special-assertion test `expected.length === 1 && typeof expected[0] ===
\x27string\x27`)? -/
def isSingleString : List JValue → Bool
  | [.str _] => true
  | _ => false

/-- The first path segment of a placeholder expression. -/
def firstSegment (varName : String) : String :=
  (jsSplit '.' varName).headD ""

/-- The remaining path segments of a placeholder expression. -/
def pathSegments (varName : String) : List String :=
  (jsSplit '.' varName).tail

/-- The literal match text of a placeholder, `\x7bvarName\x7d`. -/
def matchText (varName : String) : String :=
  String.mk (lbrace :: varName.toList ++ [rbrace])

/-! ## The unresolved-placeholder predicate (for idempotence)

`allPlain f l` mirrors `scanPlain f l` and holds when every placeholder
match in `l` is mapped by the callback to its own match text (i.e.
nothing resolves). -/

mutual

/-- Outside a match attempt. -/
def allPlain (f : String → Option String) : List Char → Bool
  | [] => true
  | c :: rest =>
    if c = lbrace then allCapture f [] rest
    else allPlain f rest

/-- Inside a match attempt (`buf` reversed, as in `scanCapture`). -/
def allCapture (f : String → Option String) (buf : List Char) : List Char → Bool
  | [] => true
  | c :: rest =>
    if c = rbrace then
      match buf with
      | [] => allPlain f rest
      | _ :: _ =>
        if f (String.mk buf.reverse) = some (matchText (String.mk buf.reverse)) then
          allPlain f rest
        else false
    else allCapture f (c :: buf) rest

end

/-- Every placeholder of the string is left unresolved by the engine
resolver in context `ctx`. -/
def allUnresolvedString (ctx : ResolverCtx) (s : String) : Bool :=
  allPlain (resolveVarE ctx) s.toList

mutual

/-- Every placeholder in every string of the structure is left
unresolved by the engine resolver in context `ctx`. -/
def allUnresolvedStruct (ctx : ResolverCtx) : JValue → Bool
  | .str s => allUnresolvedString ctx s
  | .arr elems => allUnresolvedList ctx elems
  | .obj fields => allUnresolvedFields ctx fields
  | _ => true

/-- Elementwise `allUnresolvedStruct`. -/
def allUnresolvedList (ctx : ResolverCtx) : List JValue → Bool
  | [] => true
  | v :: rest => allUnresolvedStruct ctx v && allUnresolvedList ctx rest

/-- Valuewise `allUnresolvedStruct`. -/
def allUnresolvedFields (ctx : ResolverCtx) : List (String × JValue) → Bool
  | [] => true
  | (_, v) :: rest => allUnresolvedStruct ctx v && allUnresolvedFields ctx rest

end

/-! ## Concrete fixtures for the theorems -/

/-- Extract the verdict and final state of a completed run. -/
def runOutcome (r : Except String (Option (Bool × RunState))) :
    Option (Bool × RunState) :=
  match r with
  | .ok (some p) => some p
  | _ => none

/-- Did the validator accept? -/
def isOkU : Except String Unit → Bool
  | .ok () => true
  | .error _ => false

/-- Count the `testStart` events of a trace. -/
def countTestStart (events : List REvent) : Nat :=
  events.countP (fun e => match e with | .testStart _ _ => true | _ => false)

/-- Count the `testEnd` events of a trace. -/
def countTestEnd (events : List REvent) : Nat :=
  events.countP (fun e => match e with | .testEnd _ _ => true | _ => false)

/-- The step ids carried by the `stepEnd` events of a trace. -/
def stepEndIds (events : List REvent) : List String :=
  events.filterMap (fun e => match e with | .stepEnd id _ _ => some id | _ => none)

/-- Scenario for C1: step `A` runs the `Fail` action, step `B` depends
on `A` and carries `if: always()`. -/
def tcDepFailC1 : TestCase :=
  { kind := "TestCase", version := "v1", name := "dep-fail",
    step := [{ name := "Step A", id := "A", kind := "Fail" },
             { name := "Step B", id := "B", kind := "Nop",
               ifCond := some "always()", depends_on := some ["A"] }] }

/-- Scenario for C2: step `A` fails, step `B` depends on `A`. -/
def tcDepFailC2 : TestCase :=
  { kind := "TestCase", version := "v1", name := "dep-fail-2",
    step := [{ name := "Step A", id := "A", kind := "Fail" },
             { name := "Step B", id := "B", kind := "Nop",
               depends_on := some ["A"] }] }

/-- A context whose caller pre-set `testSuccess = true`. -/
def ctxPreset : RunState :=
  { testCaseId := "tid", testCaseName := "tc", testSuccess := some true }

/-- A fresh context: the caller did not set `testSuccess`. -/
def ctxFresh : RunState :=
  { testCaseId := "tid", testCaseName := "tc" }

/-- A single dependency-free `Nop` step. -/
def tcOneNop : TestCase :=
  { kind := "TestCase", version := "v1", name := "one-nop",
    step := [{ name := "Step 1", id := "s1", kind := "Nop" }] }

/-- Two dependency-free steps, the second failing. -/
def tcNopFail : TestCase :=
  { kind := "TestCase", version := "v1", name := "nop-fail",
    step := [{ name := "Step 1", id := "s1", kind := "Nop" },
             { name := "Step 2", id := "s2", kind := "Fail" }] }

/-- A single step whose `failure()` guard excludes execution on a
successful test. -/
def tcFailureGuard : TestCase :=
  { kind := "TestCase", version := "v1", name := "skip-one",
    step := [{ name := "Step 1", id := "s1", kind := "Nop", ifCond := some "failure()" }] }

/-- A test case whose only step carries the empty-string `if`. -/
def tcEmptyIf : TestCase :=
  { kind := "TestCase", version := "v1", name := "empty-if",
    step := [{ name := "Step 1", id := "s1", kind := "Nop", ifCond := some "" }] }

/-- An assertion context binding `x` to the falsy number `0`. -/
def tctxZero : TestContext := { vars := [("x", .num 0)] }

/-- A resolver context in which the output of step `b` is itself a
placeholder referring to step `a` (resolution creates a new resolvable
placeholder). -/
def ctxNested : ResolverCtx :=
  { testCaseId := "TID", testCaseName := "TN",
    stepResults := [("a", { success := true, output := .str "hello" }),
                    ("b", { success := true, output := .str (matchText "a") })] }

/-! ## Scanner lemmas -/

theorem string_mk_toList (s : String) : String.mk s.toList = s := by
  cases s; rfl

/-- Closing a capture: scanning `xs ++ \x7d :: rest` in capture mode with
a nonempty total capture applies the callback to the capture
`buf.reverse ++ xs` and resumes after the right brace. -/
theorem scanCapture_close (f : String → Option String) :
    ∀ (xs : List Char) (buf : List Char) (rest : List Char),
      (∀ c ∈ xs, c ≠ rbrace) → buf.reverse ++ xs ≠ [] →
      scanCapture f buf (xs ++ rbrace :: rest) =
        match f (String.mk (buf.reverse ++ xs)) with
        | none => none
        | some repl => (scanPlain f rest).map (fun out => repl.toList ++ out)
  | [], buf, rest, _, hne => by
    cases buf with
    | nil => simp at hne
    | cons b bs => simp [scanCapture]
  | x :: xs, buf, rest, hx, hne => by
    have hxr : x ≠ rbrace := hx x (by simp)
    have htail : ∀ c ∈ xs, c ≠ rbrace := fun c hc => hx c (by simp [hc])
    have ih := scanCapture_close f xs (x :: buf) rest htail (by simp)
    rw [List.cons_append]
    simp only [scanCapture, if_neg hxr]
    rw [ih]
    simp [List.reverse_cons, List.append_assoc]

/-- A single well-formed placeholder resolves through the callback:
`jsReplace f "\x7bv\x7d" = f v` when `v` is nonempty and brace-free. -/
theorem jsReplace_single (f : String → Option String) (v : String)
    (hne : v.toList ≠ []) (hb : ∀ c ∈ v.toList, c ≠ lbrace ∧ c ≠ rbrace) :
    jsReplace f (matchText v) = f v := by
  unfold jsReplace matchText
  have h1 : (String.mk (lbrace :: v.toList ++ [rbrace])).toList =
      lbrace :: (v.toList ++ [rbrace]) := by simp [String.toList]
  rw [h1]
  simp only [scanPlain, if_pos rfl]
  have h2 := scanCapture_close f v.toList [] [] (fun c hc => (hb c hc).2) (by simpa using hne)
  simp only [List.reverse_nil, List.nil_append, string_mk_toList] at h2
  rw [h2]
  cases hf : f v with
  | none => simp
  | some repl => simp [scanPlain, string_mk_toList]

/-! ## Identity of the scan on all-unresolved strings -/

mutual

theorem scanPlain_of_allPlain (f : String → Option String) :
    ∀ l : List Char, allPlain f l = true → scanPlain f l = some l
  | [], _ => rfl
  | c :: rest, h => by
    by_cases hc : c = lbrace
    · subst hc
      simp only [allPlain, if_pos rfl] at h
      simp only [scanPlain, if_pos rfl]
      simpa using scanCapture_of_allCapture f [] rest h
    · simp only [allPlain, if_neg hc] at h
      simp only [scanPlain, if_neg hc]
      rw [scanPlain_of_allPlain f rest h]
      rfl

theorem scanCapture_of_allCapture (f : String → Option String) :
    ∀ (buf : List Char) (l : List Char), allCapture f buf l = true →
      scanCapture f buf l = some (lbrace :: buf.reverse ++ l)
  | buf, [], _ => by simp [scanCapture]
  | buf, c :: rest, h => by
    by_cases hc : c = rbrace
    · subst hc
      cases buf with
      | nil =>
        simp only [allCapture, if_pos rfl] at h
        simp only [scanCapture, if_pos rfl]
        rw [scanPlain_of_allPlain f rest h]
        simp
      | cons b bs =>
        simp only [allCapture, if_pos rfl] at h
        by_cases hcb : f (String.mk (b :: bs).reverse) =
            some (matchText (String.mk (b :: bs).reverse))
        · rw [if_pos hcb] at h
          simp only [scanCapture, if_pos rfl]
          rw [hcb, scanPlain_of_allPlain f rest h]
          simp [matchText, String.toList, string_mk_toList]
        · rw [if_neg hcb] at h
          exact absurd h (by simp)
    · simp only [allCapture, if_neg hc] at h
      simp only [scanCapture, if_neg hc]
      rw [scanCapture_of_allCapture f (c :: buf) rest h]
      simp

end

/-- An all-unresolved string is a fixed point of the string resolver. -/
theorem resolveString_of_allUnresolved (ctx : ResolverCtx) (s : String)
    (h : allUnresolvedString ctx s = true) : resolveString ctx s = some s := by
  unfold resolveString jsReplace
  rw [scanPlain_of_allPlain _ _ h]
  simp [string_mk_toList]

mutual

theorem resolveStruct_of_allUnresolved (ctx : ResolverCtx) :
    ∀ v : JValue, allUnresolvedStruct ctx v = true → resolveStruct ctx v = some v
  | .undef, _ => rfl
  | .null, _ => rfl
  | .bool _, _ => rfl
  | .num _, _ => rfl
  | .str s, h => by
    simp only [allUnresolvedStruct] at h
    simp [resolveStruct, resolveString_of_allUnresolved ctx s h]
  | .arr elems, h => by
    simp only [allUnresolvedStruct] at h
    simp [resolveStruct, resolveStructList_of_allUnresolved ctx elems h]
  | .obj fields, h => by
    simp only [allUnresolvedStruct] at h
    simp [resolveStruct, resolveStructFields_of_allUnresolved ctx fields h]

theorem resolveStructList_of_allUnresolved (ctx : ResolverCtx) :
    ∀ l : List JValue, allUnresolvedList ctx l = true → resolveStructList ctx l = some l
  | [], _ => rfl
  | v :: rest, h => by
    simp only [allUnresolvedList, Bool.and_eq_true] at h
    simp [resolveStructList, resolveStruct_of_allUnresolved ctx v h.1,
      resolveStructList_of_allUnresolved ctx rest h.2]

theorem resolveStructFields_of_allUnresolved (ctx : ResolverCtx) :
    ∀ l : List (String × JValue), allUnresolvedFields ctx l = true →
      resolveStructFields ctx l = some l
  | [], _ => rfl
  | (k, v) :: rest, h => by
    simp only [allUnresolvedFields, Bool.and_eq_true] at h
    simp [resolveStructFields, resolveStruct_of_allUnresolved ctx v h.1,
      resolveStructFields_of_allUnresolved ctx rest h.2]

end

/-! ## `resolveVarE` case lemmas -/

theorem resolveVarE_unknown (ctx : ResolverCtx) (varName : String)
    (h1 : firstSegment varName ≠ "testCaseId")
    (h2 : firstSegment varName ≠ "testCaseName")
    (h3 : lookupKV ctx.stepResults (firstSegment varName) = none) :
    resolveVarE ctx varName = some (matchText varName) := by
  have hv1 : varName ≠ "testCaseId" := by
    intro he; subst he; exact h1 (by decide)
  have hv2 : varName ≠ "testCaseName" := by
    intro he; subst he; exact h2 (by decide)
  simp only [firstSegment] at h3
  simp only [resolveVarE, if_neg hv1, if_neg hv2, h3, matchText]

theorem resolveVarE_undefined_traversal (ctx : ResolverCtx) (varName : String)
    (r : ActionResult)
    (hr : lookupKV ctx.stepResults (firstSegment varName) = some r)
    (hp : pathSegments varName ≠ [])
    (hw : walkPath r.toJ (pathSegments varName) = some .undef) :
    resolveVarE ctx varName = some (matchText varName) := by
  have hv1 : varName ≠ "testCaseId" := by
    intro he; subst he; exact hp (by decide)
  have hv2 : varName ≠ "testCaseName" := by
    intro he; subst he; exact hp (by decide)
  simp only [firstSegment] at hr
  simp only [pathSegments] at hp hw
  simp only [resolveVarE, if_neg hv1, if_neg hv2, hr, List.isEmpty_iff, if_neg hp, hw,
    matchText]
  simp

theorem resolveVarE_resolved (ctx : ResolverCtx) (varName : String)
    (r : ActionResult) (v : JValue)
    (hr : lookupKV ctx.stepResults (firstSegment varName) = some r)
    (hp : pathSegments varName ≠ [])
    (hw : walkPath r.toJ (pathSegments varName) = some v)
    (hv : v ≠ .undef) :
    resolveVarE ctx varName =
      some (if typeofObject v then jsonStr v else jsString v) := by
  have hv1 : varName ≠ "testCaseId" := by
    intro he; subst he; exact hp (by decide)
  have hv2 : varName ≠ "testCaseName" := by
    intro he; subst he; exact hp (by decide)
  simp only [firstSegment] at hr
  simp only [pathSegments] at hp hw
  simp only [resolveVarE, if_neg hv1, if_neg hv2, hr, List.isEmpty_iff, if_neg hp, hw,
    if_neg hv]

theorem resolveVarE_wholeResult (ctx : ResolverCtx) (varName : String)
    (r : ActionResult)
    (hv1 : varName ≠ "testCaseId") (hv2 : varName ≠ "testCaseName")
    (hr : lookupKV ctx.stepResults (firstSegment varName) = some r)
    (hp : pathSegments varName = []) :
    resolveVarE ctx varName = some (jsonStr r.toJ) := by
  simp only [firstSegment] at hr
  simp only [pathSegments] at hp
  simp only [resolveVarE, if_neg hv1, if_neg hv2, hr, hp, List.isEmpty_nil]
  simp

/-! ## Claim theorems -/

/-- C8: in `processStepVariables`, a placeholder whose first path
segment is neither `testCaseId`, `testCaseName` nor the id of a
completed step, or whose traversal reaches `undefined`, is left
literally unchanged; a successfully resolved value is embedded as its
JSON text when it is a structure and as its string form when it is a
scalar (a whole-result reference embeds the JSON of the full
`ActionResult`); and a string consisting of one well-formed placeholder
resolves through exactly this callback. -/
theorem processStepVariables_placeholder_semantics :
    (∀ (ctx : ResolverCtx) (varName : String),
       firstSegment varName ≠ "testCaseId" →
       firstSegment varName ≠ "testCaseName" →
       lookupKV ctx.stepResults (firstSegment varName) = none →
       resolveVarE ctx varName = some (matchText varName)) ∧
    (∀ (ctx : ResolverCtx) (varName : String) (r : ActionResult),
       lookupKV ctx.stepResults (firstSegment varName) = some r →
       pathSegments varName ≠ [] →
       walkPath r.toJ (pathSegments varName) = some .undef →
       resolveVarE ctx varName = some (matchText varName)) ∧
    (∀ (ctx : ResolverCtx) (varName : String) (r : ActionResult) (v : JValue),
       lookupKV ctx.stepResults (firstSegment varName) = some r →
       pathSegments varName ≠ [] →
       walkPath r.toJ (pathSegments varName) = some v → v ≠ .undef →
       resolveVarE ctx varName =
         some (if isStructure v then jsonStr v else jsString v)) ∧
    (∀ (ctx : ResolverCtx) (varName : String) (r : ActionResult),
       varName ≠ "testCaseId" → varName ≠ "testCaseName" →
       lookupKV ctx.stepResults (firstSegment varName) = some r →
       pathSegments varName = [] →
       resolveVarE ctx varName = some (jsonStr r.toJ)) ∧
    (∀ (ctx : ResolverCtx) (varName : String),
       varName.toList ≠ [] → (∀ c ∈ varName.toList, c ≠ lbrace ∧ c ≠ rbrace) →
       resolveString ctx (matchText varName) = resolveVarE ctx varName) := by
  refine ⟨resolveVarE_unknown, resolveVarE_undefined_traversal, ?_,
    resolveVarE_wholeResult, ?_⟩
  · intro ctx varName r v hr hp hw hv
    rw [resolveVarE_resolved ctx varName r v hr hp hw hv]
    cases v <;> simp [typeofObject, isStructure, jsonStr, jsString]
  · intro ctx varName hne hb
    exact jsReplace_single (resolveVarE ctx) varName hne hb

/-- C8 witness: the clauses at concrete inputs — an unknown first
segment and a traversal miss stay literal, a resolved scalar embeds as
its string form, a whole-result reference embeds as JSON, and the
string scanner routes a lone placeholder through the callback. -/
theorem processStepVariables_placeholder_semantics_witness :
    resolveVarE ctxNested "nope.x" = some (matchText "nope.x") ∧
    resolveVarE ctxNested "a.missing.z" = some (matchText "a.missing.z") ∧
    resolveVarE ctxNested "a.output" = some "hello" ∧
    resolveVarE ctxNested "a" =
      some (jsonStr (ActionResult.toJ { success := true, output := .str "hello" })) ∧
    resolveString ctxNested (matchText "a.output") = some "hello" := by
  obtain ⟨h1, h2, h3, h4, h5⟩ := processStepVariables_placeholder_semantics
  refine ⟨h1 ctxNested "nope.x" (by decide) (by decide) (by decide),
          h2 ctxNested "a.missing.z" { success := true, output := .str "hello" }
            (by decide) (by decide) (by decide),
          ?_, ?_, ?_⟩
  · have := h3 ctxNested "a.output" { success := true, output := .str "hello" }
      (.str "hello") (by decide) (by decide) (by decide) (by decide)
    simpa using this
  · exact h4 ctxNested "a" { success := true, output := .str "hello" }
      (by decide) (by decide) (by decide) (by decide)
  · have h6 := h5 ctxNested "a.output" (by decide) (by decide)
    have := h3 ctxNested "a.output" { success := true, output := .str "hello" }
      (.str "hello") (by decide) (by decide) (by decide) (by decide)
    rw [h6]
    simpa using this

/-- C9 counterexample: the resolver is not idempotent.  In `ctxNested`
the output of step `b` is the literal text `\x7ba\x7d`, so resolving
`\x7bb.output\x7d` once yields `\x7ba\x7d`, and resolving again replaces
it with the JSON of step `a`. -/
theorem resolver_idempotence_counterexample :
    (resolveStruct ctxNested (.str (matchText "b.output"))).bind
        (resolveStruct ctxNested) ≠
      resolveStruct ctxNested (.str (matchText "b.output")) := by decide

/-- C9 amended: the resolver is idempotent on every already-resolved
structure all of whose remaining placeholders are unresolvable — if
`resolve(x) = y` and every placeholder of `y` is left unresolved by the
callback, then `resolve(y) = y`. -/
theorem resolver_idempotent_on_unresolvable (ctx : ResolverCtx) (x y : JValue)
    (_hx : resolveStruct ctx x = some y)
    (hy : allUnresolvedStruct ctx y = true) :
    resolveStruct ctx y = some y :=
  resolveStruct_of_allUnresolved ctx y hy

/-- C9 amended witness: a structure whose placeholder does not resolve
is a fixed point of a second application. -/
theorem resolver_idempotent_on_unresolvable_witness :
    resolveStruct ctxNested (.str ("plain " ++ matchText "nope")) =
      some (.str ("plain " ++ matchText "nope")) :=
  resolver_idempotent_on_unresolvable ctxNested
    (.str ("plain " ++ matchText "nope")) (.str ("plain " ++ matchText "nope"))
    (by decide) (by decide)

/-- C10: in the Assertion Evaluator's template substitution, a
placeholder whose variable resolves to any falsy value (also a defined
one: `0`, `""`, `false`, `null`) is left as the literal placeholder
text; hence an expected string `\x7bx\x7d` with `x = 0` can never equal
the falsy actual `0`.  The engine's value resolver, by contrast,
substitutes every value that is not `undefined`. -/
theorem assertion_template_falsy_fallback :
    (∀ (tctx : TestContext) (varName : String),
        truthy (getVariableValue tctx varName) = false →
        assertTemplateCallback tctx varName = some (matchText varName)) ∧
    (∀ (tctx : TestContext) (varName : String),
        varName.toList ≠ [] → (∀ c ∈ varName.toList, c ≠ lbrace ∧ c ≠ rbrace) →
        truthy (getVariableValue tctx varName) = false →
        assertResolveVariables tctx (.str (matchText varName)) =
          .str (matchText varName)) ∧
    (getVariableValue tctxZero "x" = .num 0 ∧
      (primitiveRecord tctxZero "" (.str (matchText "x")) (.num 0)).passed = false) ∧
    (∀ (ctx : ResolverCtx) (varName : String) (r : ActionResult) (v : JValue),
        lookupKV ctx.stepResults (firstSegment varName) = some r →
        pathSegments varName ≠ [] →
        walkPath r.toJ (pathSegments varName) = some v → v ≠ .undef →
        resolveVarE ctx varName =
          some (if typeofObject v then jsonStr v else jsString v)) := by
  have hcb : ∀ (tctx : TestContext) (varName : String),
      truthy (getVariableValue tctx varName) = false →
      assertTemplateCallback tctx varName = some (matchText varName) := by
    intro tctx varName hf
    simp [assertTemplateCallback, hf, matchText]
  refine ⟨hcb, ?_, by decide, resolveVarE_resolved⟩
  intro tctx varName hne hb hf
  have h1 : (matchText varName).toList = lbrace :: (varName.toList ++ [rbrace]) := by
    simp [matchText, String.toList]
  have hbr : bracketForm (matchText varName) = none := by
    rw [bracketForm.eq_def, h1]
    have : lbrace ≠ '[' := by decide
    simp [this]
  simp only [assertResolveVariables, hbr]
  rw [jsReplace_single (assertTemplateCallback tctx) varName hne hb,
    hcb tctx varName hf]
  rfl

/-- C10 witness: with `x = 0` in scope, the template callback and the
whole substitution leave `\x7bx\x7d` literal. -/
theorem assertion_template_falsy_fallback_witness :
    assertTemplateCallback tctxZero "x" = some (matchText "x") ∧
    assertResolveVariables tctxZero (.str (matchText "x")) = .str (matchText "x") := by
  obtain ⟨h1, h2, _, _⟩ := assertion_template_falsy_fallback
  exact ⟨h1 tctxZero "x" (by decide),
         h2 tctxZero "x" (by decide) (by decide) (by decide)⟩

/-- C1 (code bug): with step `A` failing and step `B` declaring
`depends_on: [A]` and `if: always()`, the engine returns verdict `false`
with `B` still `PENDING`: `canExecuteStep` requires every dependency to
be `FINISHED`, so `B` is never dispatched (its Action is indeed never
invoked), but — contrary to the claim, the specification, and the
source's own comment in `canExecuteStep` — `B` is never marked `FAILED`,
no synthetic `Dependency \x27A\x27 failed` result is recorded in
`stepResults`, and no `reportStepEnd` for `B` is emitted; the
dependency-failure branch of `executeStepsWithDependencies` is
unreachable. -/
theorem dependencyFailure_leaves_dependent_pending :
    ((runOutcome (executeTestCase stubRegistry tcDepFailC1 ctxPreset)).map (fun p =>
      (p.1, lookupKV p.2.stepStates "B", lookupKV p.2.stepResults "B",
        decide ("B" ∈ p.2.invoked)))
    = some (false, some { status := .pending, result := none }, none, false)) ∧
    ((runOutcome (executeTestCase stubRegistry tcDepFailC1 ctxPreset)).map (fun p =>
      (decide ("B" ∈ stepEndIds p.2.events), p.2.testSuccess))
    = some (false, some false)) := by
  exact ⟨by decide, by decide⟩

/-- C2 (code bug): the engine returns while a step is still `PENDING`.
With `A` failing and `B` depending on `A`, `executeTestCase` terminates
normally (outcome `some`), yet `B` has not reached any terminal status:
its scheduler state is still `PENDING` and it has no result. -/
theorem engine_returns_with_pending_step :
    (runOutcome (executeTestCase stubRegistry tcDepFailC2 ctxPreset)).map (fun p =>
      ((lookupKV p.2.stepStates "B").map (fun ss => ss.status), p.1))
    = some (some .pending, false) := by decide

/-- C3 (code bug): `executeTestCase` never initializes
`context.testSuccess`.  On a fresh context the first step with no `if`
is skipped (the `undefined` flag is falsy under the default `success()`
guard): the Action is not invoked, a `stepSkipped` event is emitted, and
the run even returns verdict `true` with `testSuccess` still unset.
Pre-setting `testSuccess = true` makes the same step dispatch, so the
missing initialization is the cause. -/
theorem freshContext_defaultStep_skipped :
    ((runOutcome (executeTestCase stubRegistry tcOneNop ctxFresh)).map (fun p =>
      (p.1, p.2.testSuccess, p.2.invoked, p.2.events))
    = some (true, none, [],
        [.stepSkipped "s1" "Step 1" "Nop" "Condition: success() (default)"])) ∧
    ((runOutcome (executeTestCase stubRegistry tcOneNop ctxPreset)).map (fun p =>
      p.2.invoked) = some ["s1"]) := by decide

/-- C4 (code bug): `executeTestCase` emits no test-level reporter
events at all: a run that emits four step-level events (start/end for
each of two steps) contains zero `reportTestStart` and zero
`reportTestEnd` calls.  (Earlier revisions of the engine emitted both;
the Allure reporter writes no result file without them.) -/
theorem no_testStart_testEnd_events :
    (runOutcome (executeTestCase stubRegistry tcNopFail ctxPreset)).map (fun p =>
      (countTestStart p.2.events, countTestEnd p.2.events, p.2.events.length, p.1))
    = some (0, 0, 4, false) := by decide

/-- C5 counterexample: a step whose `failure()` guard excludes execution
on a successful test ends with scheduler state `FINISHED` — not
`SKIPPED` — and nothing is recorded under its id in `stepResults`,
contrary to the claim. -/
theorem skipped_step_marked_finished :
    (runOutcome (executeTestCase stubRegistry tcFailureGuard ctxPreset)).map (fun p =>
      (lookupKV p.2.stepStates "s1", lookupKV p.2.stepResults "s1", p.2.invoked,
        p.2.events))
    = some (some { status := .finished,
                   result := some { success := true, output := .str "SKIPPED" } },
        none, [],
        [.stepSkipped "s1" "Step 1" "Nop" "Condition: failure()"]) := by decide

/-- C5 amended: for every step whose conditional guard excludes
execution, `executeTestStep` emits exactly one `reportStepSkipped` event
with a reason string, never invokes the Action, leaves `stepResults`
(and `testSuccess`) untouched, and returns the synthetic success result
`\x7bsuccess: true, output: "SKIPPED"\x7d`; the sequential scheduler
then records scheduler state `FINISHED` (not `SKIPPED`) for the step,
with the synthetic result attached. -/
theorem guardExcluded_step_behavior :
    (∀ (reg : Registry) (tc : TestCase) (st : RunState) (stepId : String)
        (step pstep : StepDefinition) (sev : Option Bool),
      tc.step.find? (fun s => s.id == stepId) = some step →
      processStep st.resCtx step = some pstep →
      shouldExecuteStep pstep st.testSuccess = .ok sev →
      tsTruthy sev = false →
      executeTestStep reg tc st stepId =
        ({ st with events := st.events ++
            [.stepSkipped pstep.id pstep.name pstep.kind (skipReason pstep)] },
         .ok { success := true, output := .str "SKIPPED" })) ∧
    (∀ (reg : Registry) (tc : TestCase) (step : StepDefinition)
        (rest : List StepDefinition) (st st1 : RunState) (r : ActionResult)
        (overall : Bool),
      executeTestStep reg tc st step.id = (st1, .ok r) → r.success = true →
      seqSteps reg tc (step :: rest) st overall =
        seqSteps reg tc rest
          { st1 with
              stepStates := setKV st1.stepStates step.id
                { status := .finished, result := some r } }
          overall) := by
  constructor
  · intro reg tc st stepId step pstep sev hfind hproc hguard hfalse
    simp [executeTestStep, hfind, hproc, hguard, hfalse]
  · intro reg tc step rest st st1 r overall hexec hsucc
    simp [seqSteps, hexec, hsucc]

/-- C5 amended witness: the two clauses at the concrete `failure()`
scenario. -/
theorem guardExcluded_step_behavior_witness :
    executeTestStep stubRegistry tcFailureGuard ctxPreset "s1" =
      ({ ctxPreset with
          events := [.stepSkipped "s1" "Step 1" "Nop" "Condition: failure()"] },
       .ok { success := true, output := .str "SKIPPED" }) ∧
    seqSteps stubRegistry tcOneNop
        [{ name := "Step 1", id := "s1", kind := "Nop" }] ctxFresh true =
      seqSteps stubRegistry tcOneNop []
        { ctxFresh with
            events := [.stepSkipped "s1" "Step 1" "Nop" "Condition: success() (default)"],
            stepStates := setKV [] "s1"
              { status := .finished,
                result := some { success := true, output := .str "SKIPPED" } } } true := by
  constructor
  · exact (guardExcluded_step_behavior.1 stubRegistry tcFailureGuard ctxPreset "s1"
      { name := "Step 1", id := "s1", kind := "Nop", ifCond := some "failure()" }
      { name := "Step 1", id := "s1", kind := "Nop", ifCond := some "failure()" }
      (some false) (by decide) (by decide) (by decide) (by decide)).trans (by decide)
  · exact guardExcluded_step_behavior.2 stubRegistry tcOneNop
      { name := "Step 1", id := "s1", kind := "Nop" } [] ctxFresh
      { ctxFresh with events :=
          [.stepSkipped "s1" "Step 1" "Nop" "Condition: success() (default)"] }
      { success := true, output := .str "SKIPPED" } true (by decide) (by decide)

/-! ## Validator characterization lemmas (for C6) -/

theorem collectDuplicates_nil_iff :
    ∀ (steps : List StepDefinition) (seen dups : List String),
      collectDuplicates steps seen dups = [] ↔
        (dups = [] ∧ (∀ s ∈ steps, s.id ∉ seen) ∧ (steps.map (fun s => s.id)).Nodup)
  | [], seen, dups => by simp [collectDuplicates]
  | step :: rest, seen, dups => by
    simp only [collectDuplicates]
    by_cases hmem : step.id ∈ seen
    · rw [collectDuplicates_nil_iff rest _ _]
      constructor
      · rintro ⟨hd, -, -⟩
        by_cases hdu : step.id ∈ dups
        · simp only [hmem, hdu] at hd
          simp at hd
          subst hd
          simp at hdu
        · simp only [hmem, hdu] at hd
          simp at hd
      · rintro ⟨-, hall, -⟩
        exact absurd hmem (hall step (List.mem_cons_self _ _))
    · have hd2 : (if step.id ∈ seen && step.id ∉ dups then dups ++ [step.id] else dups) =
          dups := by simp [hmem]
      have hs2 : (if step.id ∈ seen then seen else seen ++ [step.id]) =
          seen ++ [step.id] := by simp [hmem]
      rw [hd2, hs2, collectDuplicates_nil_iff rest _ _]
      constructor
      · rintro ⟨hd, hall, hnd⟩
        refine ⟨hd, ?_, ?_⟩
        · intro s hs
          rcases List.mem_cons.mp hs with h | h
          · rw [h]; exact hmem
          · exact fun hin => (hall s h) (List.mem_append.mpr (Or.inl hin))
        · rw [List.map_cons, List.nodup_cons]
          refine ⟨?_, hnd⟩
          intro hin
          rcases List.mem_map.mp hin with ⟨s, hs, hid⟩
          exact (hall s hs) (List.mem_append.mpr (Or.inr (by simp [hid])))
      · rintro ⟨hd, hall, hnd⟩
        rw [List.map_cons, List.nodup_cons] at hnd
        refine ⟨hd, ?_, hnd.2⟩
        intro s hs hin
        rcases List.mem_append.mp hin with h | h
        · exact (hall s (List.mem_cons_of_mem _ hs)) h
        · have hid : s.id = step.id := by simpa using h
          exact hnd.1 (List.mem_map.mpr ⟨s, hs, hid⟩)

theorem lastIndexOfId_none_iff (tc : TestCase) (d : String) :
    lastIndexOfId tc d = none ↔ ∀ q ∈ tc.step.enum, q.2.id ≠ d := by
  unfold lastIndexOfId
  cases hg : (tc.step.enum.filter (fun p => p.2.id == d)).getLast? with
  | none =>
    have hnil := List.getLast?_eq_none_iff.mp hg
    have hall := List.filter_eq_nil_iff.mp hnil
    simp only [true_iff]
    intro q hq hid
    exact (hall q hq) (by simp [hid])
  | some p =>
    obtain ⟨hex, hpe⟩ := List.mem_getLast?_eq_getLast (show p ∈ _ from hg)
    have hpf : p ∈ tc.step.enum.filter (fun p => p.2.id == d) := by
      rw [hpe]; exact List.getLast_mem hex
    rw [List.mem_filter] at hpf
    simp only [reduceCtorEq, false_iff, not_forall]
    exact ⟨p, hpf.1, by simpa using hpf.2⟩

theorem lastIndexOfId_some (tc : TestCase) (d : String) (j : Nat)
    (h : lastIndexOfId tc d = some j) :
    ∃ step, (j, step) ∈ tc.step.enum ∧ step.id = d := by
  unfold lastIndexOfId at h
  cases hg : (tc.step.enum.filter (fun p => p.2.id == d)).getLast? with
  | none => rw [hg] at h; cases h
  | some p =>
    rw [hg] at h
    obtain ⟨hex, hpe⟩ := List.mem_getLast?_eq_getLast (show p ∈ _ from hg)
    have hpf : p ∈ tc.step.enum.filter (fun p => p.2.id == d) := by
      rw [hpe]; exact List.getLast_mem hex
    rw [List.mem_filter] at hpf
    refine ⟨p.2, ?_, by simpa using hpf.2⟩
    have : p.1 = j := by simpa using h
    rw [← this]
    exact hpf.1

theorem enum_id_unique (tc : TestCase) (hnd : (stepIds tc).Nodup)
    {q1 q2 : Nat × StepDefinition}
    (h1 : q1 ∈ tc.step.enum) (h2 : q2 ∈ tc.step.enum) (heq : q1.2.id = q2.2.id) :
    q1.1 = q2.1 := by
  rw [List.mem_enum_iff_getElem?] at h1 h2
  rw [List.getElem?_eq_some_iff] at h1 h2
  obtain ⟨hb1, he1⟩ := h1
  obtain ⟨hb2, he2⟩ := h2
  have hl1 : q1.1 < (stepIds tc).length := by simpa [stepIds] using hb1
  have hl2 : q2.1 < (stepIds tc).length := by simpa [stepIds] using hb2
  have hv : (stepIds tc).get ⟨q1.1, hl1⟩ = (stepIds tc).get ⟨q2.1, hl2⟩ := by
    simp only [stepIds, List.get_eq_getElem, List.getElem_map, he1, he2, heq]
  exact (@List.Nodup.getElem_inj_iff _ _ hnd _ hl1 _ hl2).mp hv

theorem lastIndex_condition (tc : TestCase) (hnd : (stepIds tc).Nodup)
    (d : String) (i : Nat) :
    (¬(∀ q ∈ tc.step.enum, q.2.id ≠ d) ∧
      ¬(∃ q ∈ tc.step.enum, q.2.id = d ∧ ¬ q.1 < i)) ↔
    (∃ j, lastIndexOfId tc d = some j ∧ j < i) := by
  constructor
  · rintro ⟨hex, hbound⟩
    cases hli : lastIndexOfId tc d with
    | none => exact absurd (lastIndexOfId_none_iff tc d |>.mp hli) hex
    | some j =>
      obtain ⟨stepj, hjmem, hjid⟩ := lastIndexOfId_some tc d j hli
      refine ⟨j, rfl, ?_⟩
      by_contra hge
      exact hbound ⟨(j, stepj), hjmem, hjid, hge⟩
  · rintro ⟨j, hli, hlt⟩
    obtain ⟨stepj, hjmem, hjid⟩ := lastIndexOfId_some tc d j hli
    constructor
    · intro hall
      exact (hall (j, stepj) hjmem) hjid
    · rintro ⟨q, hq, hqid, hqge⟩
      have : q.1 = j := enum_id_unique tc hnd hq hjmem (by simpa using hqid.trans hjid.symm)
      exact hqge (this ▸ hlt)

theorem goDeps_ok_iff (tc : TestCase) (i : Nat) (sid : String) :
    ∀ deps : List String, checkDeps.goDeps tc i sid deps = .ok () ↔
      ∀ d ∈ deps, ∃ j, lastIndexOfId tc d = some j ∧ j < i
  | [] => by simp [checkDeps.goDeps]
  | d :: ds => by
    simp only [checkDeps.goDeps]
    cases hli : lastIndexOfId tc d with
    | none =>
      dsimp only
      apply iff_of_false
      · intro h; cases h
      · intro hall
        obtain ⟨j, hj, -⟩ := hall d (List.mem_cons_self _ _)
        rw [hli] at hj; cases hj
    | some j =>
      dsimp only
      by_cases hge : j ≥ i
      · rw [if_pos hge]
        apply iff_of_false
        · intro h; cases h
        · intro hall
          obtain ⟨j2, hj2, hlt⟩ := hall d (List.mem_cons_self _ _)
          rw [hli] at hj2
          injection hj2 with hj2
          omega
      · rw [if_neg hge, goDeps_ok_iff tc i sid ds]
        constructor
        · intro hall e he
          rcases List.mem_cons.mp he with h | h
          · exact ⟨j, by rw [h]; exact hli, by omega⟩
          · exact hall e h
        · intro hall e he
          exact hall e (List.mem_cons_of_mem _ he)

theorem checkDeps_ok_iff (tc : TestCase) :
    ∀ l : List (Nat × StepDefinition), checkDeps tc l = .ok () ↔
      ∀ p ∈ l, ∀ d ∈ depsOf p.2, ∃ j, lastIndexOfId tc d = some j ∧ j < p.1
  | [] => by simp [checkDeps]
  | (i, step) :: rest => by
    simp only [checkDeps]
    cases hdep : step.depends_on with
    | none =>
      dsimp only
      rw [checkDeps_ok_iff tc rest]
      constructor
      · intro hall p hp
        rcases List.mem_cons.mp hp with h | h
        · rw [h]; simp [depsOf, hdep]
        · exact hall p h
      · intro hall p hp
        exact hall p (List.mem_cons_of_mem _ hp)
    | some deps =>
      dsimp only
      cases hgo : checkDeps.goDeps tc i step.id deps with
      | ok u =>
        obtain rfl : u = () := rfl
        have hg := (goDeps_ok_iff tc i step.id deps).mp hgo
        dsimp only
        rw [checkDeps_ok_iff tc rest]
        constructor
        · intro hall p hp
          rcases List.mem_cons.mp hp with h | h
          · rw [h]; simpa [depsOf, hdep] using hg
          · exact hall p h
        · intro hall p hp
          exact hall p (List.mem_cons_of_mem _ hp)
      | error e =>
        dsimp only
        apply iff_of_false
        · intro h; cases h
        · intro hall
          have hc := hall (i, step) (List.mem_cons_self _ _)
          have hok : checkDeps.goDeps tc i step.id deps = .ok () :=
            (goDeps_ok_iff tc i step.id deps).mpr (by simpa [depsOf, hdep] using hc)
          rw [hok] at hgo; cases hgo

theorem validateDependencies_ok_iff (tc : TestCase) :
    validateDependencies tc = .ok () ↔
      ((stepIds tc).Nodup ∧
        ∀ p ∈ tc.step.enum, ∀ d ∈ depsOf p.2,
          ∃ j, lastIndexOfId tc d = some j ∧ j < p.1) := by
  unfold validateDependencies
  by_cases hdup : collectDuplicates tc.step [] [] = []
  · have hnd := (collectDuplicates_nil_iff tc.step [] []).mp hdup
    rw [hdup]
    simp only [List.isEmpty_nil, if_true]
    rw [checkDeps_ok_iff tc tc.step.enum]
    have : (stepIds tc).Nodup := by simpa [stepIds] using hnd.2.2
    simp [this]
  · have : ¬ (stepIds tc).Nodup := by
      intro hc
      exact hdup ((collectDuplicates_nil_iff tc.step [] []).mpr
        ⟨rfl, by simp, by simpa [stepIds] using hc⟩)
    rw [if_neg (by simpa [List.isEmpty_iff] using hdup)]
    simp [this]

theorem validateIf_go_ok_iff :
    ∀ steps : List StepDefinition, validateIfConditions.go steps = .ok () ↔
      ∀ step ∈ steps, ∀ s, step.ifCond = some s → s ≠ "" →
        (jsLowerTrim s = "always()" ∨ jsLowerTrim s = "success()" ∨
          jsLowerTrim s = "failure()")
  | [] => by simp [validateIfConditions.go]
  | step :: rest => by
    simp only [validateIfConditions.go]
    cases hif : step.ifCond with
    | none =>
      dsimp only
      rw [validateIf_go_ok_iff rest]
      constructor
      · intro hall p hp
        rcases List.mem_cons.mp hp with h | h
        · rw [h]; intro s hs; rw [hif] at hs; cases hs
        · exact hall p h
      · intro hall p hp
        exact hall p (List.mem_cons_of_mem _ hp)
    | some s =>
      dsimp only
      by_cases hes : s = ""
      · rw [if_pos hes, validateIf_go_ok_iff rest]
        constructor
        · intro hall p hp
          rcases List.mem_cons.mp hp with h | h
          · rw [h]; intro t ht hne
            rw [hif] at ht
            injection ht with ht
            rw [← ht] at hne
            exact absurd hes hne
          · exact hall p h
        · intro hall p hp
          exact hall p (List.mem_cons_of_mem _ hp)
      · rw [if_neg hes]
        by_cases hcond : jsLowerTrim s = "always()" || jsLowerTrim s = "success()" ||
            jsLowerTrim s = "failure()"
        · have hc2 : (if jsLowerTrim s = "always()" || jsLowerTrim s = "success()" ||
              jsLowerTrim s = "failure()" then validateIfConditions.go rest
              else Except.error ("Invalid if condition \x27" ++ s ++ "\x27 in step \x27" ++
                step.id ++ "\x27. Valid conditions are: always(), success(), failure()")) =
              validateIfConditions.go rest := by rw [if_pos hcond]
          rw [hc2, validateIf_go_ok_iff rest]
          constructor
          · intro hall p hp
            rcases List.mem_cons.mp hp with h | h
            · rw [h]; intro t ht _
              rw [hif] at ht
              injection ht with ht
              rw [← ht]
              simpa [or_assoc] using hcond
            · exact hall p h
          · intro hall p hp
            exact hall p (List.mem_cons_of_mem _ hp)
        · rw [if_neg hcond]
          apply iff_of_false
          · intro h; cases h
          · intro hall
            have hthis := hall step (List.mem_cons_self _ _) s hif hes
            simp only [Bool.or_eq_true, decide_eq_true_eq] at hcond
            push_neg at hcond
            rcases hthis with h | h | h
            · exact hcond.1.1 h
            · exact hcond.1.2 h
            · exact hcond.2 h

/-- C6 counterexample: the claim's "iff" fails at an empty-string `if`:
the value `""` is, after lower-casing and trimming, none of `always()`,
`success()`, `failure()`, yet both validators accept the test case —
`if (step.if)` in the source skips the check for the falsy empty
string. -/
theorem validator_accepts_emptyIf :
    isOkU (validateDependencies tcEmptyIf) = true ∧
    isOkU (validateIfConditions tcEmptyIf) = true ∧
    (tcEmptyIf.step.headD default).ifCond = some "" ∧
    ¬(jsLowerTrim "" = "always()" ∨ jsLowerTrim "" = "success()" ∨
      jsLowerTrim "" = "failure()") := by decide

/-- C6 amended: the two validators, run before any step executes,
accept a test case iff it has no duplicated step id, no `depends_on`
entry naming a non-existent step or a step at an index not strictly
smaller than the depending step's index, and no present *non-empty*
`if` value that after lower-casing and trimming is not one of
`always()`, `success()`, `failure()` (an empty-string `if` is falsy and
escapes the check); and acceptance by the dependency validator implies
the dependency relation is acyclic. -/
theorem validator_error_characterization (tc : TestCase) :
    ((validateDependencies tc = .ok () ∧ validateIfConditions tc = .ok ()) ↔
      ¬(specDupIds tc ∨ specDepViolation tc ∨ specIfViolation tc)) ∧
    (validateDependencies tc = .ok () →
      ∀ i, ¬ Relation.TransGen (dependsOnIdx tc) i i) := by
  have hiff1 := validateDependencies_ok_iff tc
  constructor
  · constructor
    · rintro ⟨hdep, hif⟩
      obtain ⟨hnd, hcd⟩ := hiff1.mp hdep
      rintro (hdup | hdv | hiv)
      · exact hdup hnd
      · obtain ⟨p, hp, d, hd, hviol⟩ := hdv
        have hcond := hcd p hp d hd
        have hnab := (lastIndex_condition tc hnd d p.1).mpr hcond
        rcases hviol with hA | hB
        · exact hnab.1 hA
        · exact hnab.2 hB
      · obtain ⟨st, hst, hbad⟩ := hiv
        cases hifc : st.ifCond with
        | none => rw [hifc] at hbad; exact hbad
        | some sv =>
          rw [hifc] at hbad
          obtain ⟨hne, h1, h2, h3⟩ := hbad
          have hthis := (validateIf_go_ok_iff tc.step).mp hif st hst sv hifc hne
          rcases hthis with h | h | h <;> contradiction
    · intro hno
      push_neg at hno
      obtain ⟨hnd2, hndv, hniv⟩ := hno
      have hnd : (stepIds tc).Nodup := not_not.mp hnd2
      constructor
      · apply hiff1.mpr
        refine ⟨hnd, ?_⟩
        intro p hp d hd
        have hnAB : ¬((∀ q ∈ tc.step.enum, q.2.id ≠ d) ∨
            (∃ q ∈ tc.step.enum, q.2.id = d ∧ ¬ q.1 < p.1)) := by
          intro hab
          exact hndv ⟨p, hp, d, hd, hab⟩
        rw [not_or] at hnAB
        exact (lastIndex_condition tc hnd d p.1).mp hnAB
      · apply (validateIf_go_ok_iff tc.step).mpr
        intro st hst sv hifc hne
        by_contra hc
        push_neg at hc
        refine absurd ?_ hniv
        exact ⟨st, hst, by rw [hifc]; exact ⟨hne, hc.1, hc.2.1, hc.2.2⟩⟩
  · intro hdep i
    obtain ⟨hnd, hcd⟩ := hiff1.mp hdep
    have hdesc : ∀ a b, dependsOnIdx tc a b → b < a := by
      intro a b hab
      obtain ⟨ha, hb, hmem⟩ := hab
      have hpa : (a, tc.step.get ⟨a, ha⟩) ∈ tc.step.enum := by
        rw [List.mk_mem_enum_iff_getElem?]
        simp [List.getElem?_eq_getElem ha]
      have hcond := hcd (a, tc.step.get ⟨a, ha⟩) hpa ((tc.step.get ⟨b, hb⟩).id) hmem
      obtain ⟨j, hj, hlt⟩ := hcond
      obtain ⟨stepj, hjmem, hjid⟩ := lastIndexOfId_some tc _ j hj
      have hpb : (b, tc.step.get ⟨b, hb⟩) ∈ tc.step.enum := by
        rw [List.mk_mem_enum_iff_getElem?]
        simp [List.getElem?_eq_getElem hb]
      have hbj : b = j := enum_id_unique tc hnd hpb hjmem (by simpa using hjid.symm)
      omega
    have htrans : ∀ a b, Relation.TransGen (dependsOnIdx tc) a b → b < a := by
      intro a b h
      induction h with
      | single hr => exact hdesc _ _ hr
      | tail _ hr ih => exact lt_trans (hdesc _ _ hr) ih
    exact fun h => lt_irrefl i (htrans i i h)

/-- C6 amended witness: the characterization accepts a concrete valid
test case, and a concrete dependency chain is acyclic. -/
theorem validator_error_characterization_witness :
    (validateDependencies tcDepFailC1 = .ok () ∧
      validateIfConditions tcDepFailC1 = .ok ()) ∧
    ¬ Relation.TransGen (dependsOnIdx tcDepFailC1) 1 1 := by
  have h1 := (validator_error_characterization tcDepFailC1).1.mpr (by decide)
  exact ⟨h1, (validator_error_characterization tcDepFailC1).2 h1.1 1⟩

/-! ## Assertion-array characterization (for C7) -/

theorem comparePositional_eq_flatMap (tctx : TestContext) (path : String)
    (es elems : List JValue) :
    ∀ (n i : Nat), comparePositional tctx path es elems i (i + n) =
      (List.range n).flatMap (fun j =>
        compareValues tctx (itemPath path (i + j)) (es.getD (i + j) .undef)
          (elems.getD (i + j) .undef))
  | 0, i => by
    rw [comparePositional]
    simp
  | n + 1, i => by
    rw [comparePositional]
    have hlt : i < i + (n + 1) := by omega
    rw [dif_pos hlt]
    have ih := comparePositional_eq_flatMap tctx path es elems n (i + 1)
    rw [show i + (n + 1) = (i + 1) + n from by omega, ih]
    rw [List.range_succ_eq_map]
    simp only [List.flatMap_cons, List.flatMap_map, Nat.add_zero]
    congr 1
    have hf : (fun j => compareValues tctx (itemPath path (i + 1 + j))
        (es.getD (i + 1 + j) JValue.undef) (elems.getD (i + 1 + j) JValue.undef)) =
        (fun j => compareValues tctx (itemPath path (i + Nat.succ j))
          (es.getD (i + Nat.succ j) JValue.undef)
          (elems.getD (i + Nat.succ j) JValue.undef)) := by
      funext j
      have : i + 1 + j = i + Nat.succ j := by omega
      rw [this]
    rw [hf]

theorem comparePositional_zero (tctx : TestContext) (path : String)
    (es elems : List JValue) (k : Nat) :
    comparePositional tctx path es elems 0 k =
      (List.range k).flatMap (fun j =>
        compareValues tctx (itemPath path j) (es.getD j .undef)
          (elems.getD j .undef)) := by
  have h := comparePositional_eq_flatMap tctx path es elems k 0
  simpa using h

/-- C7: The claim says the special-assertion path fires only for the four
reserved tokens, every other expected sequence being compared positionally.
In the code the special path fires for EVERY single-string expected array
(`expected.length === 1 && typeof expected[0] === \x27string\x27`): a
non-reserved string such as `"hello"` yields one failed record instead of a
positional comparison. Here `["hello"]` against `["hello"]` fails under the
engine while the claimed positional comparison passes. -/
theorem singleString_positional_counterexample :
    ((evaluateAssertions tctxZero (.arr [.str "hello"]) (.arr [.str "hello"])).map
        (fun r => r.passed) = [false]) ∧
    (((List.range 1).flatMap (fun j =>
        compareValues tctxZero (itemPath "" j)
          (([JValue.str "hello"]).getD j .undef)
          (([JValue.str "hello"]).getD j .undef))).map
        (fun r => r.passed) = [true]) := by
  constructor
  · rw [evaluateAssertions, compareValues]
    decide
  · have h : (List.range 1) = [0] := by decide
    rw [h]
    simp only [List.flatMap_cons, List.flatMap_nil, List.append_nil]
    rw [compareValues]
    · decide
    all_goals (intros; rename_i h2; simp at h2)

/-- C7 (amended): in `handleArrayAssertion`, (1) ANY expected array whose
single element is a string takes the special-assertion path, producing
exactly one record whose verdict is `evaluateSpecialAssertion`; (2) a string
outside the four reserved tokens always evaluates to `false` there; (3) any
other expected array against an array actual is compared positionally over
`max(len(expected), len(actual))`, missing elements read as `undefined`;
(4) any other expected array against a non-array actual yields the single
type failure at the current path. -/
theorem handleArrayAssertion_characterization :
    (∀ (tctx : TestContext) (path s : String) (actual : JValue),
      compareValues tctx path (.arr [.str s]) actual =
        [{ field := path, expected := .str s, actual := actual,
           passed := evaluateSpecialAssertion s actual,
           message := if evaluateSpecialAssertion s actual then none
             else some ("Assertion \x27" ++ s ++ "\x27 failed for value: " ++
               jsString actual) }]) ∧
    (∀ (s : String) (actual : JValue), s ∉ reservedTokens →
      evaluateSpecialAssertion s actual = false) ∧
    (∀ (tctx : TestContext) (path : String) (es elems : List JValue),
      isSingleString es = false →
      compareValues tctx path (.arr es) (.arr elems) =
        (List.range (max es.length elems.length)).flatMap (fun j =>
          compareValues tctx (itemPath path j) (es.getD j .undef)
            (elems.getD j .undef))) ∧
    (∀ (tctx : TestContext) (path : String) (es : List JValue) (actual : JValue),
      isSingleString es = false → isArray actual = false →
      compareValues tctx path (.arr es) actual =
        [{ field := path, expected := .arr es, actual := actual, passed := false,
           message := some "Expected array but got different type" }]) := by
  refine ⟨?_, ?_, ?_, ?_⟩
  · intro tctx path s actual
    rw [compareValues]
  · intro s actual hns
    simp only [reservedTokens, List.mem_cons, List.not_mem_nil, or_false, not_or] at hns
    obtain ⟨h1, h2, h3, h4⟩ := hns
    rw [evaluateSpecialAssertion.eq_def, if_neg h1, if_neg h2, if_neg h3, if_neg h4]
  · intro tctx path es elems hss
    have harm : compareValues tctx path (.arr es) (.arr elems) =
        comparePositional tctx path es elems 0 (max es.length elems.length) := by
      rcases es with _ | ⟨e, rest⟩
      · rw [compareValues] <;> (intros; rename_i h; cases h)
      · rcases rest with _ | ⟨e2, rest2⟩
        · cases e
          case str s2 => exact absurd hss (by simp [isSingleString])
          all_goals (rw [compareValues] <;> (intros; rename_i h; cases h))
        · rw [compareValues] <;> (intros; rename_i h; cases h)
    rw [harm, comparePositional_zero]
  · intro tctx path es actual hss hna
    rcases actual with _ | _ | _ | _ | _ | elems | _
    case arr => simp [isArray] at hna
    all_goals
      rcases es with _ | ⟨e, rest⟩
      · rw [compareValues] <;> (intros; rename_i h; cases h)
      · rcases rest with _ | ⟨e2, rest2⟩
        · cases e
          case str s2 => exact absurd hss (by simp [isSingleString])
          all_goals (rw [compareValues] <;> (intros; rename_i h; cases h))
        · rw [compareValues] <;> (intros; rename_i h; cases h)

/-- Witness for the C7 theorem at concrete inputs: the non-reserved string
`"nope"` against `1` fails via the special path, and `[1, 2]` against `[1]`
is compared positionally over two indices. -/
theorem handleArrayAssertion_characterization_witness :
    (compareValues { vars := [] } "" (.arr [.str "nope"]) (.num 1) =
      [{ field := "", expected := .str "nope", actual := .num 1, passed := false,
         message := some "Assertion \x27nope\x27 failed for value: 1" }]) ∧
    (evaluateSpecialAssertion "nope" (.num 1) = false) ∧
    (compareValues { vars := [] } "" (.arr [.num 1, .num 2]) (.arr [.num 1]) =
      (List.range 2).flatMap (fun j =>
        compareValues { vars := [] } (itemPath "" j)
          (([JValue.num 1, JValue.num 2]).getD j .undef)
          (([JValue.num 1]).getD j .undef))) ∧
    (compareValues { vars := [] } "" (.arr [.num 1, .num 2]) (.str "x") =
      [{ field := "", expected := .arr [.num 1, .num 2], actual := .str "x",
         passed := false,
         message := some "Expected array but got different type" }]) := by
  obtain ⟨h1, h2, h3, h4⟩ := handleArrayAssertion_characterization
  refine ⟨?_, h2 "nope" (.num 1) (by decide), ?_, ?_⟩
  · rw [h1 { vars := [] } "" "nope" (.num 1)]
    have hz : evaluateSpecialAssertion "nope" (.num 1) = false :=
      h2 "nope" (.num 1) (by decide)
    rw [hz]
    decide
  · exact h3 { vars := [] } "" [.num 1, .num 2] [.num 1] (by decide)
  · exact h4 { vars := [] } "" [.num 1, .num 2] (.str "x") (by decide) (by decide)

end ITP
